import Mathlib

/-!
# geerpc (day1-codec) and geeorm (day2-reflect-schema)

A shallow embedding of `gee-rpc/day1-codec` (`codec/codec.go`, `codec/gob.go`,
`server.go`) and of `gee-orm/day2-reflect-schema/schema/schema.go`.

The connection is an explicit value (`Conn`): what its read side will deliver
is fixed up front, what is written to it and how often it is closed is
recorded.  The goroutines of one connection (the `ServeConn` goroutine and one
`handleRequest` goroutine per dispatched request) are threads of a step
function; a schedule chooses, step by step, which thread moves and whether an
encoding performed in that step fails.
-/

namespace Geerpc

/-! ## codec/codec.go -/

/-- Go `error` values that the code distinguishes (`io.EOF`,
`io.ErrUnexpectedEOF`) and all the others, by their message. -/
inductive GoError
  | EOF
  | ErrUnexpectedEOF
  | other (msg : String)
deriving DecidableEq, Repr

/-- The method `err.Error()`. -/
def GoError.Error : GoError → String
  | .EOF => "EOF"
  | .ErrUnexpectedEOF => "unexpected EOF"
  | .other msg => msg

/-- A Go result pair `(value, err)` of a call that yields a value or an error. -/
inductive Result (α : Type)
  | ok (a : α)
  | err (e : GoError)
deriving DecidableEq, Repr

/-- The struct `codec.Header` (`codec.go` lines 7-11).  `Seq` is a `uint64`;
the code never computes with it, so it is a natural number here. -/
structure Header where
  ServiceMethod : String
  Seq : Nat
  Error : String
deriving DecidableEq, Repr

/-- The constant `codec.GobType` (`codec.go` line 26); `codec.Type` is `string`. -/
def GobType : String := "application/gob"

/-- The constant `codec.JsonType` (`codec.go` line 27). -/
def JsonType : String := "application/json"

/-- The goroutines of one connection: the one running `ServeConn` and
`serveCodec`, and the `i`-th `handleRequest` goroutine it started. -/
inductive Tid
  | main
  | unit (i : Nat)
deriving DecidableEq, Repr

/-- The `interface{}` bodies handed to `Write` by the server: a string reply, or
the value `invalidRequest = struct{}{}` (`server.go` line 74). -/
inductive Body
  | str (s : String)
  | invalidRequest
deriving DecidableEq, Repr

/-- What one `enc.Encode` call puts into the buffer: an encoded header or an
encoded body, labelled with the goroutine whose `Write` call encoded it. -/
inductive Chunk
  | hdr (who : Tid) (h : Header)
  | body (who : Tid) (b : Body)
deriving DecidableEq, Repr

/-- What the next `dec.Decode` call on the connection yields, for either
destination the server decodes into (`*codec.Header` or `*string`). -/
structure Decoding where
  asHeader : Result Header
  asString : Result String
deriving DecidableEq, Repr

/-- The struct `Option` of `server.go` lines 20-23. -/
structure ConnOption where
  MagicNumber : Int
  CodecType : String
deriving DecidableEq, Repr

/-- The connection, an `io.ReadWriteCloser`: `opt` is what JSON-decoding its
preamble yields, `dec` what the successive gob `Decode` calls will yield (after
the last one the stream is at its end), `wire` what has been written to it,
`closes` how many times its `Close` has been invoked. -/
structure Conn where
  opt : Result ConnOption
  dec : List Decoding
  wire : List Chunk
  closes : Nat
deriving DecidableEq, Repr

/-- The method `conn.Close()`. -/
def Conn.Close (c : Conn) : Conn := { c with closes := c.closes + 1 }

/-! ## codec/gob.go -/

/-- The struct `GobCodec` (`gob.go` lines 10-15): the connection and the
contents of the `bufio.Writer` in front of it.  The decoder reads from `conn`,
the encoder writes into `buf`. -/
structure GobCodec where
  conn : Conn
  buf : List Chunk
deriving DecidableEq, Repr

/-- The operations performed on a connection and the synchronisation
operations of `serveCodec`, as they are recorded in the trace. -/
inductive Op
  | decodeOption (r : Result ConnOption)
  | newCodec (t : String)
  | readHeader (r : Result Header)
  | readBody (r : Result String)
  | lock
  | unlock
  | write (h : Header) (body : Body)
  | encodeHeader (err : Option GoError)
  | encodeBody (err : Option GoError)
  | flush
  | closeInWrite
  | closeServeCodec
  | closeServeConn
  | wgAdd
  | go (i : Nat)
  | wgDone
deriving DecidableEq, Repr

/-- The function `NewGobCodec` (`gob.go` lines 19-27). -/
def NewGobCodec (conn : Conn) : GobCodec := { conn := conn, buf := [] }

/-- The method `GobCodec.ReadHeader` (`gob.go` lines 29-31): one `Decode` into a
header.  At the end of the stream `Decode` yields `io.EOF`. -/
def GobCodec.ReadHeader (c : GobCodec) : GobCodec × Result Header :=
  match c.conn.dec with
  | [] => (c, .err .EOF)
  | d :: rest => ({ c with conn := { c.conn with dec := rest } }, d.asHeader)

/-- The method `GobCodec.ReadBody` (`gob.go` lines 33-35), called with a
`*string`. -/
def GobCodec.ReadBody (c : GobCodec) : GobCodec × Result String :=
  match c.conn.dec with
  | [] => (c, .err .EOF)
  | d :: rest => ({ c with conn := { c.conn with dec := rest } }, d.asString)

/-- The method `GobCodec.Close` (`gob.go` lines 58-60). -/
def GobCodec.Close (c : GobCodec) : GobCodec := { c with conn := c.conn.Close }

/-- The method `buf.Flush()`: the buffered chunks go to the connection. -/
def GobCodec.Flush (c : GobCodec) : GobCodec :=
  { c with conn := { c.conn with wire := c.conn.wire ++ c.buf }, buf := [] }

/-- Where a call of `GobCodec.Write` stands (`gob.go` lines 38-56). -/
inductive WritePc
  /-- before `c.enc.Encode(h)`, line 46 -/
  | encodeHeader
  /-- before `c.enc.Encode(body)`, line 51 -/
  | encodeBody
  /-- in the deferred function, before `c.buf.Flush()`, line 40; `err` is the
  named result -/
  | flush (err : Option GoError)
  /-- in the deferred function, before `c.Close()`, line 42 -/
  | closeOnErr (err : GoError)
deriving DecidableEq, Repr

/-- One operation of `GobCodec.Write(h, body)` called by goroutine `who`.
`fail` is the outcome of the `Encode` call when the step is one (`none`: it
succeeds).  The result is the codec, the place the call stands at next
(`Sum.inl`) or the error value it returns (`Sum.inr`), and the operations
performed. -/
def GobCodec.writeStep (c : GobCodec) (who : Tid) (h : Header) (body : Body)
    (fail : Option GoError) : WritePc → GobCodec × (WritePc ⊕ Option GoError) × List Op
  | .encodeHeader =>
    match fail with
    | some e => (c, .inl (.flush (some e)), [.write h body, .encodeHeader (some e)])
    | none => ({ c with buf := c.buf ++ [.hdr who h] }, .inl .encodeBody,
        [.write h body, .encodeHeader none])
  | .encodeBody =>
    match fail with
    | some e => (c, .inl (.flush (some e)), [.encodeBody (some e)])
    | none => ({ c with buf := c.buf ++ [.body who body] }, .inl (.flush none),
        [.encodeBody none])
  | .flush err =>
    match err with
    | some e => (c.Flush, .inl (.closeOnErr e), [.flush])
    | none => (c.Flush, .inr none, [.flush])
  | .closeOnErr e => (c.Close, .inr (some e), [.closeInWrite])

/-- Runs a call of `Write` from the place `pc` to its return, at most `fuel`
operations; `eh` and `eb` are the outcomes of encoding the header and the
body. -/
def GobCodec.writeFrom (who : Tid) (h : Header) (body : Body) (eh eb : Option GoError) :
    Nat → GobCodec → WritePc → List Op → Option (GobCodec × Option GoError × List Op)
  | 0, _, _, _ => none
  | fuel + 1, c, pc, ops =>
    match c.writeStep who h body (if pc = .encodeHeader then eh else eb) pc with
    | (c1, .inl pc1, ops1) => GobCodec.writeFrom who h body eh eb fuel c1 pc1 (ops ++ ops1)
    | (c1, .inr e, ops1) => some (c1, e, ops ++ ops1)

/-- The method `GobCodec.Write` (`gob.go` lines 38-56) as one call: the codec
after it, the error it returns, the operations it performed. -/
def GobCodec.Write (c : GobCodec) (who : Tid) (h : Header) (body : Body)
    (eh eb : Option GoError) : Option (GobCodec × Option GoError × List Op) :=
  GobCodec.writeFrom who h body eh eb 4 c .encodeHeader []

/-- The map `NewCodecFuncMap` after `init` (`codec.go` lines 30-35): its one
entry is `GobType ↦ NewGobCodec`. -/
def NewCodecFuncMap : List (String × (Conn → GobCodec)) := [(GobType, NewGobCodec)]

/-! ## server.go -/

/-- The constant `MagicNumber` (`server.go` line 18). -/
def MagicNumber : Int := 0x3bef5c

/-- The struct `request` (`server.go` lines 101-104); `argv` is the string the
body was decoded into (empty when decoding failed), `replyv` is unset until
`handleRequest` computes it. -/
structure request where
  h : Header
  argv : String
  replyv : Option String
deriving DecidableEq, Repr

/-- The method `readRequestHeader` (`server.go` lines 106-116): the codec after
the call, the pair `(*codec.Header, error)` it returns, the operations
performed. -/
def readRequestHeader (cc : GobCodec) : GobCodec × (Option Header × Option GoError) × List Op :=
  match cc.ReadHeader with
  | (cc1, .err e) => (cc1, (none, some e), [.readHeader (.err e)])
  | (cc1, .ok h) => (cc1, (some h, none), [.readHeader (.ok h)])

/-- The method `readRequest` (`server.go` lines 118-132): the codec after the
call, the pair `(*request, error)` it returns, the operations performed.  A
failure of `ReadBody` is logged (line 128) and the method returns `req, nil`
(line 131).  The second case does not occur: `readRequestHeader` returns a
header or an error. -/
def readRequest (cc : GobCodec) : GobCodec × (Option request × Option GoError) × List Op :=
  match readRequestHeader cc with
  | (cc1, (_, some e), ops) => (cc1, (none, some e), ops)
  | (cc1, (none, none), ops) => (cc1, (none, none), ops)
  | (cc1, (some h, none), ops) =>
    match cc1.ReadBody with
    | (cc2, .err e) => (cc2, (some { h := h, argv := "", replyv := none }, none),
        ops ++ [.readBody (.err e)])
    | (cc2, .ok s) => (cc2, (some { h := h, argv := s, replyv := none }, none),
        ops ++ [.readBody (.ok s)])

/-- The handshake of `ServeConn` (`server.go` lines 50-67): the constructor of
the codec to serve the connection with, or `none` when `ServeConn` returns at
line 55, 60 or 66. -/
def handshake (opt : Result ConnOption) : Option (Conn → GobCodec) :=
  match opt with
  | .err _ => none
  | .ok o =>
    if o.MagicNumber ≠ MagicNumber then none
    else NewCodecFuncMap.lookup o.CodecType

/-- The reply of `handleRequest` (`server.go` line 147):
`fmt.Sprintf("I get your req, seq: %d", req.h.Seq)`. -/
def reply (h : Header) : String := "I get your req, seq: " ++ Nat.repr h.Seq

/-- Where a call of `sendResponse` stands (`server.go` lines 134-140). -/
inductive SendPc
  /-- before `sending.Lock()`, line 135 -/
  | lock
  /-- inside `cc.Write(h, body)`, line 137 -/
  | write (w : WritePc)
  /-- before the deferred `sending.Unlock()`, line 136 -/
  | unlock
deriving DecidableEq, Repr

/-- Where the goroutine of `ServeConn` stands. -/
inductive MainPc
  /-- `ServeConn`, before decoding the option, line 53 -/
  | handshake
  /-- `serveCodec`, before `server.readRequest(cc)`, line 82 -/
  | read
  /-- `serveCodec`, inside `server.sendResponse(cc, req.h, invalidRequest, sending)`,
  line 89 -/
  | send (h : Header) (body : Body) (sp : SendPc)
  /-- `serveCodec`, before `wg.Add(1)`, line 92 -/
  | add (req : request)
  /-- `serveCodec`, before `go server.handleRequest(cc, req, sending, wg)`, line 94 -/
  | go (req : request)
  /-- `serveCodec`, before `wg.Wait()`, line 96 -/
  | wait
  /-- `serveCodec`, before `cc.Close()`, line 97 -/
  | close
  /-- `ServeConn`, before the deferred `conn.Close()`, line 49 -/
  | deferred
  /-- `ServeConn` has returned -/
  | done
deriving DecidableEq, Repr

/-- Where a `handleRequest` goroutine stands (`server.go` lines 142-150). -/
inductive UnitPc
  /-- before line 147 -/
  | entry
  /-- inside `server.sendResponse(cc, req.h, req.replyv.Interface(), sending)`,
  line 148 -/
  | send (h : Header) (body : Body) (sp : SendPc)
  /-- before the deferred `wg.Done()`, line 145 -/
  | wgDone
  /-- the goroutine has ended -/
  | finished
deriving DecidableEq, Repr

/-- A `handleRequest` goroutine: its request and where it stands. -/
structure Goroutine where
  req : request
  pc : UnitPc
deriving DecidableEq, Repr

/-- An operation together with the goroutine that performed it. -/
structure Event where
  who : Tid
  op : Op
deriving DecidableEq, Repr

/-- The state of one connection being served: the codec (with the
connection), the `ServeConn` goroutine, the `handleRequest` goroutines in the
order they were started, the holder of the mutex `sending`, the counter of the
wait group `wg`, and the operations performed so far. -/
structure State where
  cc : GobCodec
  main : MainPc
  units : List Goroutine
  sending : Option Tid
  wg : Nat
  trace : List Event
deriving DecidableEq, Repr

/-- One operation of `sendResponse(cc, h, body, sending)` called by goroutine
`t`: the state after it and the place the call stands at next, `none` when
it has returned.  `sending.Lock()` can only be performed when nobody holds the
mutex.  The error returned by `cc.Write` is only logged (lines 137-139). -/
def sendResponse (s : State) (t : Tid) (h : Header) (body : Body) (fail : Option GoError) :
    SendPc → Option (State × Option SendPc)
  | .lock =>
    if s.sending = none then
      some ({ s with sending := some t, trace := s.trace ++ [⟨t, .lock⟩] },
        some (.write .encodeHeader))
    else none
  | .write w =>
    match s.cc.writeStep t h body fail w with
    | (cc1, .inl w1, ops) =>
      some ({ s with cc := cc1, trace := s.trace ++ ops.map (Event.mk t) }, some (.write w1))
    | (cc1, .inr _, ops) =>
      some ({ s with cc := cc1, trace := s.trace ++ ops.map (Event.mk t) }, some .unlock)
  | .unlock =>
    some ({ s with sending := none, trace := s.trace ++ [⟨t, .unlock⟩] }, none)

/-- One operation of the `i`-th `handleRequest` goroutine `u`
(`server.go` lines 142-150). -/
def handleRequest (s : State) (i : Nat) (u : Goroutine) (fail : Option GoError) : Option State :=
  match u.pc with
  | .entry =>
    let req := { u.req with replyv := some (reply u.req.h) }
    some { s with units := s.units.set i ⟨req, .send req.h (.str (reply u.req.h)) .lock⟩ }
  | .send h body sp =>
    match sendResponse s (.unit i) h body fail sp with
    | none => none
    | some (s1, some sp1) => some { s1 with units := s1.units.set i ⟨u.req, .send h body sp1⟩ }
    | some (s1, none) => some { s1 with units := s1.units.set i ⟨u.req, .wgDone⟩ }
  | .wgDone =>
    some { s with wg := s.wg - 1, units := s.units.set i ⟨u.req, .finished⟩,
                  trace := s.trace ++ [⟨.unit i, .wgDone⟩] }
  | .finished => none

/-- One operation of the goroutine running `ServeConn` (`server.go` lines 47-71)
and, inside it, `serveCodec` (lines 76-98).  The handshake is one step, and so
is a call of `readRequest` together with the branch on its result (lines
84-91): only this goroutine reads from the connection.  `wg.Wait()` can only
be passed when the counter is zero.  A nil request with a nil error, which
`readRequest` never returns, is no step. -/
def ServeConn (s : State) (fail : Option GoError) : Option State :=
  match s.main with
  | .handshake =>
    match handshake s.cc.conn.opt with
    | none =>
      some { s with main := .deferred,
                    trace := s.trace ++ [⟨.main, .decodeOption s.cc.conn.opt⟩] }
    | some f =>
      some { s with cc := f s.cc.conn, main := .read,
                    trace := s.trace ++ [⟨.main, .decodeOption s.cc.conn.opt⟩,
                      ⟨.main, .newCodec (match s.cc.conn.opt with
                        | .ok o => o.CodecType | .err _ => "")⟩] }
  | .read =>
    match readRequest s.cc with
    | (cc1, (none, some _), ops) =>
      some { s with cc := cc1, main := .wait, trace := s.trace ++ ops.map (Event.mk .main) }
    | (cc1, (some req, some e), ops) =>
      some { s with cc := cc1, main := .send { req.h with Error := e.Error } .invalidRequest .lock,
                    trace := s.trace ++ ops.map (Event.mk .main) }
    | (cc1, (some req, none), ops) =>
      some { s with cc := cc1, main := .add req, trace := s.trace ++ ops.map (Event.mk .main) }
    | (_, (none, none), _) => none
  | .send h body sp =>
    match sendResponse s .main h body fail sp with
    | none => none
    | some (s1, some sp1) => some { s1 with main := .send h body sp1 }
    | some (s1, none) => some { s1 with main := .read }
  | .add req =>
    some { s with wg := s.wg + 1, main := .go req, trace := s.trace ++ [⟨.main, .wgAdd⟩] }
  | .go req =>
    some { s with units := s.units ++ [⟨req, .entry⟩], main := .read,
                  trace := s.trace ++ [⟨.main, .go s.units.length⟩] }
  | .wait =>
    if s.wg = 0 then some { s with main := .close } else none
  | .close =>
    some { s with cc := s.cc.Close, main := .deferred,
                  trace := s.trace ++ [⟨.main, .closeServeCodec⟩] }
  | .deferred =>
    some { s with cc := { s.cc with conn := s.cc.conn.Close }, main := .done,
                  trace := s.trace ++ [⟨.main, .closeServeConn⟩] }
  | .done => none

/-- A choice of the scheduler and of the environment: the goroutine that
performs its next operation, and whether the `Encode` call fails if that
operation is one. -/
structure Choice where
  tid : Tid
  fail : Option GoError
deriving DecidableEq, Repr

/-- One step of the connection: the chosen goroutine performs its next
operation; `none` when it cannot (it is blocked, has ended or was never
started). -/
def step (s : State) (c : Choice) : Option State :=
  match c.tid with
  | .main => ServeConn s c.fail
  | .unit i =>
    match s.units[i]? with
    | none => none
    | some u => handleRequest s i u c.fail

/-- The state after the steps of a schedule, `none` when one of them cannot be
taken. -/
def run (s : State) : List Choice → Option State
  | [] => some s
  | c :: cs =>
    match step s c with
    | none => none
    | some s1 => run s1 cs

/-- The state in which `ServeConn(conn)` is called on a newly accepted
connection that will deliver the preamble `opt` and then the decodings `dec`. -/
def ServeConn_init (opt : Result ConnOption) (dec : List Decoding) : State :=
  { cc := { conn := { opt := opt, dec := dec, wire := [], closes := 0 }, buf := [] },
    main := .handshake, units := [], sending := none, wg := 0, trace := [] }

/-- The state in which `serveCodec(cc)` is entered with no operation recorded. -/
def serveCodec_init (cc : GobCodec) : State :=
  { cc := cc, main := .read, units := [], sending := none, wg := 0, trace := [] }

/-! ## The steps, case by case -/

/-- The steps of `step` case by case, one constructor for each operation a
goroutine can perform: every step is one of them (`step_trans`).  A
`handleRequest` goroutine `u` with index `l1.length` is singled out by writing
the list of goroutines as `l1 ++ u :: l2`.  The case `mainSend`, the
`ServeConn` goroutine inside `sendResponse`, is left unspecified: it never
occurs (`Inv.noSend`). -/
inductive Trans : State → Choice → State → Prop
  | hsFail (s : State) (fail : Option GoError) :
      s.main = .handshake → handshake s.cc.conn.opt = none →
      Trans s ⟨.main, fail⟩
        { s with main := .deferred,
                 trace := s.trace ++ [⟨.main, .decodeOption s.cc.conn.opt⟩] }
  | hsOk (s : State) (fail : Option GoError) (f : Conn → GobCodec) :
      s.main = .handshake → handshake s.cc.conn.opt = some f →
      Trans s ⟨.main, fail⟩
        { s with cc := f s.cc.conn, main := .read,
                 trace := s.trace ++ [⟨.main, .decodeOption s.cc.conn.opt⟩,
                   ⟨.main, .newCodec (match s.cc.conn.opt with
                     | .ok o => o.CodecType | .err _ => "")⟩] }
  | readErr (s : State) (fail : Option GoError) (cc1 : GobCodec) (e : GoError) (ops : List Op) :
      s.main = .read → readRequest s.cc = (cc1, (none, some e), ops) →
      Trans s ⟨.main, fail⟩
        { s with cc := cc1, main := .wait, trace := s.trace ++ ops.map (Event.mk .main) }
  | readOk (s : State) (fail : Option GoError) (cc1 : GobCodec) (req : request) (ops : List Op) :
      s.main = .read → readRequest s.cc = (cc1, (some req, none), ops) →
      Trans s ⟨.main, fail⟩
        { s with cc := cc1, main := .add req, trace := s.trace ++ ops.map (Event.mk .main) }
  | readBad (s : State) (fail : Option GoError) (cc1 : GobCodec) (req : request) (e : GoError)
      (ops : List Op) :
      s.main = .read → readRequest s.cc = (cc1, (some req, some e), ops) →
      Trans s ⟨.main, fail⟩
        { s with cc := cc1,
                 main := .send { req.h with Error := e.Error } .invalidRequest .lock,
                 trace := s.trace ++ ops.map (Event.mk .main) }
  | mainSend (s : State) (fail : Option GoError) (h : Header) (body : Body) (sp : SendPc)
      (s1 : State) :
      s.main = .send h body sp → Trans s ⟨.main, fail⟩ s1
  | add (s : State) (fail : Option GoError) (req : request) :
      s.main = .add req →
      Trans s ⟨.main, fail⟩
        { s with wg := s.wg + 1, main := .go req, trace := s.trace ++ [⟨.main, .wgAdd⟩] }
  | go (s : State) (fail : Option GoError) (req : request) :
      s.main = .go req →
      Trans s ⟨.main, fail⟩
        { s with units := s.units ++ [⟨req, .entry⟩], main := .read,
                 trace := s.trace ++ [⟨.main, .go s.units.length⟩] }
  | wait (s : State) (fail : Option GoError) :
      s.main = .wait → s.wg = 0 →
      Trans s ⟨.main, fail⟩ { s with main := .close }
  | close (s : State) (fail : Option GoError) :
      s.main = .close →
      Trans s ⟨.main, fail⟩
        { s with cc := s.cc.Close, main := .deferred,
                 trace := s.trace ++ [⟨.main, .closeServeCodec⟩] }
  | deferred (s : State) (fail : Option GoError) :
      s.main = .deferred →
      Trans s ⟨.main, fail⟩
        { s with cc := { s.cc with conn := s.cc.conn.Close }, main := .done,
                 trace := s.trace ++ [⟨.main, .closeServeConn⟩] }
  | entry (s : State) (fail : Option GoError) (l1 l2 : List Goroutine) (r : request) :
      s.units = l1 ++ ⟨r, .entry⟩ :: l2 →
      Trans s ⟨.unit l1.length, fail⟩
        { s with units := l1 ++ ⟨{ r with replyv := some (reply r.h) },
                   .send r.h (.str (reply r.h)) .lock⟩ :: l2 }
  | lock (s : State) (fail : Option GoError) (l1 l2 : List Goroutine) (r : request)
      (h : Header) (body : Body) :
      s.units = l1 ++ ⟨r, .send h body .lock⟩ :: l2 → s.sending = none →
      Trans s ⟨.unit l1.length, fail⟩
        { s with sending := some (.unit l1.length),
                 trace := s.trace ++ [⟨.unit l1.length, .lock⟩],
                 units := l1 ++ ⟨r, .send h body (.write .encodeHeader)⟩ :: l2 }
  | encHeaderOk (s : State) (l1 l2 : List Goroutine) (r : request) (h : Header) (body : Body) :
      s.units = l1 ++ ⟨r, .send h body (.write .encodeHeader)⟩ :: l2 →
      Trans s ⟨.unit l1.length, none⟩
        { s with cc := { s.cc with buf := s.cc.buf ++ [.hdr (.unit l1.length) h] },
                 trace := s.trace ++ [⟨.unit l1.length, .write h body⟩,
                   ⟨.unit l1.length, .encodeHeader none⟩],
                 units := l1 ++ ⟨r, .send h body (.write .encodeBody)⟩ :: l2 }
  | encHeaderFail (s : State) (e : GoError) (l1 l2 : List Goroutine) (r : request)
      (h : Header) (body : Body) :
      s.units = l1 ++ ⟨r, .send h body (.write .encodeHeader)⟩ :: l2 →
      Trans s ⟨.unit l1.length, some e⟩
        { s with trace := s.trace ++ [⟨.unit l1.length, .write h body⟩,
                   ⟨.unit l1.length, .encodeHeader (some e)⟩],
                 units := l1 ++ ⟨r, .send h body (.write (.flush (some e)))⟩ :: l2 }
  | encBodyOk (s : State) (l1 l2 : List Goroutine) (r : request) (h : Header) (body : Body) :
      s.units = l1 ++ ⟨r, .send h body (.write .encodeBody)⟩ :: l2 →
      Trans s ⟨.unit l1.length, none⟩
        { s with cc := { s.cc with buf := s.cc.buf ++ [.body (.unit l1.length) body] },
                 trace := s.trace ++ [⟨.unit l1.length, .encodeBody none⟩],
                 units := l1 ++ ⟨r, .send h body (.write (.flush none))⟩ :: l2 }
  | encBodyFail (s : State) (e : GoError) (l1 l2 : List Goroutine) (r : request)
      (h : Header) (body : Body) :
      s.units = l1 ++ ⟨r, .send h body (.write .encodeBody)⟩ :: l2 →
      Trans s ⟨.unit l1.length, some e⟩
        { s with trace := s.trace ++ [⟨.unit l1.length, .encodeBody (some e)⟩],
                 units := l1 ++ ⟨r, .send h body (.write (.flush (some e)))⟩ :: l2 }
  | flushOk (s : State) (fail : Option GoError) (l1 l2 : List Goroutine) (r : request)
      (h : Header) (body : Body) :
      s.units = l1 ++ ⟨r, .send h body (.write (.flush none))⟩ :: l2 →
      Trans s ⟨.unit l1.length, fail⟩
        { s with cc := s.cc.Flush,
                 trace := s.trace ++ [⟨.unit l1.length, .flush⟩],
                 units := l1 ++ ⟨r, .send h body .unlock⟩ :: l2 }
  | flushErr (s : State) (fail : Option GoError) (e : GoError) (l1 l2 : List Goroutine)
      (r : request) (h : Header) (body : Body) :
      s.units = l1 ++ ⟨r, .send h body (.write (.flush (some e)))⟩ :: l2 →
      Trans s ⟨.unit l1.length, fail⟩
        { s with cc := s.cc.Flush,
                 trace := s.trace ++ [⟨.unit l1.length, .flush⟩],
                 units := l1 ++ ⟨r, .send h body (.write (.closeOnErr e))⟩ :: l2 }
  | closeOnErr (s : State) (fail : Option GoError) (e : GoError) (l1 l2 : List Goroutine)
      (r : request) (h : Header) (body : Body) :
      s.units = l1 ++ ⟨r, .send h body (.write (.closeOnErr e))⟩ :: l2 →
      Trans s ⟨.unit l1.length, fail⟩
        { s with cc := s.cc.Close,
                 trace := s.trace ++ [⟨.unit l1.length, .closeInWrite⟩],
                 units := l1 ++ ⟨r, .send h body .unlock⟩ :: l2 }
  | unlock (s : State) (fail : Option GoError) (l1 l2 : List Goroutine) (r : request)
      (h : Header) (body : Body) :
      s.units = l1 ++ ⟨r, .send h body .unlock⟩ :: l2 →
      Trans s ⟨.unit l1.length, fail⟩
        { s with sending := none,
                 trace := s.trace ++ [⟨.unit l1.length, .unlock⟩],
                 units := l1 ++ ⟨r, .wgDone⟩ :: l2 }
  | wgDone (s : State) (fail : Option GoError) (l1 l2 : List Goroutine) (r : request) :
      s.units = l1 ++ ⟨r, .wgDone⟩ :: l2 →
      Trans s ⟨.unit l1.length, fail⟩
        { s with wg := s.wg - 1,
                 units := l1 ++ ⟨r, .finished⟩ :: l2,
                 trace := s.trace ++ [⟨.unit l1.length, .wgDone⟩] }

/-! ## Invariants of the connection state -/

/-- A goroutine is in the critical section of `sendResponse` when it has
passed `sending.Lock()` and not yet `sending.Unlock()`. -/
def UnitPc.inCS : UnitPc → Bool
  | .send _ _ (.write _) => true
  | .send _ _ .unlock => true
  | _ => false

/-- One while `serveCodec` has done `wg.Add(1)` for a goroutine it has not
yet started. -/
def goPending : MainPc → Nat
  | .go _ => 1
  | _ => 0

/-- The places of the `ServeConn` goroutine outside the loop of `serveCodec`
at which no `handleRequest` goroutine is running. -/
def MainPc.quiet : MainPc → Bool
  | .handshake => true
  | .close => true
  | .deferred => true
  | .done => true
  | _ => false

/-- Every goroutine in the critical section holds the mutex. -/
def Excl (units : List Goroutine) (sending : Option Tid) : Prop :=
  ∀ i u, units[i]? = some u → u.pc.inCS = true → sending = some (.unit i)

/-- The holder of the mutex is a goroutine in the critical section. -/
def Held (units : List Goroutine) (sending : Option Tid) : Prop :=
  ∀ i, sending = some (.unit i) → ∃ u, units[i]? = some u ∧ u.pc.inCS = true

/-- The invariant of the connection state: `serveCodec` never sends a
response itself; the mutex `sending` is held exactly by the one goroutine in
the critical section; the counter of `wg` is the number of goroutines that
have not ended, plus one between `wg.Add(1)` and `go`; and it is zero before
the loop and after `wg.Wait()`. -/
structure Inv (s : State) : Prop where
  noSend : ∀ h b sp, s.main ≠ .send h b sp
  excl : Excl s.units s.sending
  held : Held s.units s.sending
  notMain : s.sending ≠ some .main
  wgEq : s.wg = (s.units.filter (fun u => u.pc ≠ .finished)).length + goPending s.main
  wgZero : s.main.quiet = true → s.wg = 0

/-! ## The number of steps left -/

/-- The number of operations a call of `Write` has left at most. -/
def WritePc.rank : WritePc → Nat
  | .encodeHeader => 4
  | .encodeBody => 3
  | .flush _ => 2
  | .closeOnErr _ => 1

/-- The number of operations a call of `sendResponse` has left at most. -/
def SendPc.rank : SendPc → Nat
  | .lock => 6
  | .write w => 1 + w.rank
  | .unlock => 1

/-- The number of operations a `handleRequest` goroutine has left at most. -/
def UnitPc.rank : UnitPc → Nat
  | .entry => 9
  | .send _ _ sp => 2 + sp.rank
  | .wgDone => 1
  | .finished => 0

/-- A bound on the operations left to the `ServeConn` goroutine and to the
goroutines it will still start, when `n` decodings are left on the connection. -/
def MainPc.rank (n : Nat) : MainPc → Nat
  | .handshake => 12 * n + 5
  | .read => 12 * n + 4
  | .send _ _ sp => 12 * n + 5 + sp.rank
  | .add _ => 12 * n + 15
  | .go _ => 12 * n + 14
  | .wait => 3
  | .close => 2
  | .deferred => 1
  | .done => 0

/-- A bound on the number of steps the connection has left. -/
def stepsLeft (s : State) : Nat :=
  s.main.rank s.cc.conn.dec.length + (s.units.map (fun u => u.pc.rank)).sum

/-! ## Predicates used to state the properties -/

/-- The handshake accepts the preamble: it decodes, its magic number is
`0x3bef5c`, and its codec type is a key of `NewCodecFuncMap`. -/
def Accepted (opt : Result ConnOption) : Prop :=
  ∃ o, opt = .ok o ∧ o.MagicNumber = 0x3bef5c ∧ o.CodecType ∈ NewCodecFuncMap.map Prod.fst

/-- The states of a connection whose handshake is rejected: nothing is
written, no frame is read, no goroutine is started; first nothing has happened,
then the option has been decoded, then the connection has been closed once. -/
def Rejected (opt : Result ConnOption) (dec : List Decoding) (s : State) : Prop :=
  s.cc.conn.wire = [] ∧ s.cc.buf = [] ∧ s.cc.conn.dec = dec ∧ s.cc.conn.opt = opt ∧
  s.units = [] ∧
  ((s.main = .handshake ∧ s.trace = [] ∧ s.cc.conn.closes = 0) ∨
   (s.main = .deferred ∧ s.trace = [⟨.main, .decodeOption opt⟩] ∧ s.cc.conn.closes = 0) ∨
   (s.main = .done ∧ s.trace = [⟨.main, .decodeOption opt⟩, ⟨.main, .closeServeConn⟩] ∧
     s.cc.conn.closes = 1))

/-- The operation is a `ReadHeader` or a `ReadBody`. -/
def Op.isRead : Op → Bool
  | .readHeader _ => true
  | .readBody _ => true
  | _ => false

/-- The operation is an `Encode` call that failed. -/
def Op.isFailedEncode : Op → Bool
  | .encodeHeader (some _) => true
  | .encodeBody (some _) => true
  | _ => false

/-- The operation is the `c.Close()` of a failed `Write` (`gob.go` line 42). -/
def Op.isCloseInWrite : Op → Bool
  | .closeInWrite => true
  | _ => false

/-- The operation is the `cc.Close()` of `serveCodec` (`server.go` line 97). -/
def Op.isCloseServeCodec : Op → Bool
  | .closeServeCodec => true
  | _ => false

/-- The operation is the deferred `conn.Close()` of `ServeConn`
(`server.go` line 49). -/
def Op.isCloseServeConn : Op → Bool
  | .closeServeConn => true
  | _ => false

/-- The number of operations of a trace that satisfy `p`. -/
def countOp (p : Op → Bool) (tr : List Event) : Nat := tr.countP (fun e => p e.op)

/-- The number of `Write` calls of a trace in which an encoding failed. -/
def failedWrites (tr : List Event) : Nat := countOp Op.isFailedEncode tr

/-- The goroutine is inside a `Write` call whose encoding has failed and
which has not yet closed the codec. -/
def UnitPc.failing : UnitPc → Bool
  | .send _ _ (.write (.flush (some _))) => true
  | .send _ _ (.write (.closeOnErr _)) => true
  | _ => false

/-- The accounting of the `Close` calls: the counter of the connection is the
number of close operations in the trace; every failed encoding has led or will
lead to one close inside `Write`; and `serveCodec` and `ServeConn` close only
at places where no `handleRequest` goroutine is running. -/
structure CloseInv (s : State) : Prop where
  total : s.cc.conn.closes = countOp Op.isCloseInWrite s.trace +
    countOp Op.isCloseServeCodec s.trace + countOp Op.isCloseServeConn s.trace
  pending : countOp Op.isCloseInWrite s.trace +
    (s.units.filter (fun u => u.pc.failing)).length = failedWrites s.trace
  quietIfClosed : 0 < countOp Op.isCloseServeCodec s.trace +
    countOp Op.isCloseServeConn s.trace → s.main.quiet = true ∧ s.main ≠ .handshake

/-- On a connection whose handshake is accepted, `serveCodec` has closed the
codec once when it has returned and not before, and `ServeConn` has closed the
connection once when it has returned and not before. -/
structure AcceptedInv (s : State) : Prop where
  acc : s.main = .handshake → handshake s.cc.conn.opt ≠ none
  sc : countOp Op.isCloseServeCodec s.trace =
    if s.main = .deferred ∨ s.main = .done then 1 else 0
  scn : countOp Op.isCloseServeConn s.trace = if s.main = .done then 1 else 0

/-- Replays one operation against the mutex `sending`, whose holder is
`holder` (`some none` when it is free); the result is `none` once an operation
has broken the discipline: `Lock` succeeds only on the free mutex, `Unlock` is
done only by the holder, and the operations of `Write` (entering it, the two
encodings, the flush, the close on error) are done only by the holder. -/
def lockStep (holder : Option (Option Tid)) (e : Event) : Option (Option Tid) :=
  match holder with
  | none => none
  | some hd =>
    match e.op with
    | .lock => if hd = none then some (some e.who) else none
    | .unlock => if hd = some e.who then some none else none
    | .write _ _ => if hd = some e.who then some hd else none
    | .encodeHeader _ => if hd = some e.who then some hd else none
    | .encodeBody _ => if hd = some e.who then some hd else none
    | .flush => if hd = some e.who then some hd else none
    | .closeInWrite => if hd = some e.who then some hd else none
    | _ => some hd

/-- Replays a trace against the mutex, starting with the mutex free. -/
def lockScan (tr : List Event) : Option (Option Tid) := tr.foldl lockStep (some none)

/-- The chunks of a stream, most recent first, are framed: every body chunk
comes directly after a header chunk of the same `Write` caller. -/
def framedRev : List Chunk → Bool
  | [] => true
  | .body t _ :: .hdr t1 _ :: rest => decide (t = t1) && framedRev rest
  | .body _ _ :: _ => false
  | .hdr _ _ :: rest => framedRev rest

/-- A goroutine that is about to encode its body finds its own header as the
most recent chunk (`sentRev` is the chunks encoded so far, most recent first). -/
def LastHdr (units : List Goroutine) (sentRev : List Chunk) : Prop :=
  ∀ i u h b, units[i]? = some u → u.pc = .send h b (.write .encodeBody) →
    sentRev.head? = some (.hdr (.unit i) h)

/-- The invariant of the written chunks: the chunks encoded so far (flushed or
still in the buffer) are framed, a goroutine about to encode its body finds its
own header last, and the buffer is empty before the codec is constructed. -/
structure FrameInv (s : State) : Prop where
  framed : framedRev (s.cc.conn.wire ++ s.cc.buf).reverse = true
  last : LastHdr s.units (s.cc.conn.wire ++ s.cc.buf).reverse
  fresh : s.main = .handshake → s.cc.buf = [] ∧ s.units = []

/-- The `Write` calls of a trace in order: the caller, the header and the
body of each. -/
def writesOf (tr : List Event) : List (Tid × Header × Body) :=
  tr.filterMap (fun e => match e.op with
    | .write h b => some (e.who, h, b)
    | _ => none)

/-- The `Seq` values of the headers handed to `Write` in a trace, in order. -/
def seqsOf (tr : List Event) : List Nat := (writesOf tr).map (fun w => w.2.1.Seq)

/-- The decodings `dec` deliver exactly the requests `reqs`, each as a header
followed by a string body, and then the stream ends. -/
def WellFormed : List Decoding → List (Header × String) → Prop
  | [], [] => True
  | d1 :: d2 :: ds, (h, b) :: rs => d1.asHeader = .ok h ∧ d2.asString = .ok b ∧ WellFormed ds rs
  | _, _ => False

/-- The `Seq` of the response a `handleRequest` goroutine has not yet handed
to `Write`, if any. -/
def UnitPc.unsent (r : request) : UnitPc → List Nat
  | .entry => [r.h.Seq]
  | .send h _ .lock => [h.Seq]
  | .send h _ (.write .encodeHeader) => [h.Seq]
  | _ => []

/-- The `Seq` of the request `serveCodec` has read and not yet dispatched, if
any. -/
def MainPc.heldSeqs : MainPc → List Nat
  | .add r => [r.h.Seq]
  | .go r => [r.h.Seq]
  | _ => []

/-- `serveCodec` has left its loop. -/
def MainPc.pastLoop : MainPc → Bool
  | .wait => true
  | .close => true
  | .deferred => true
  | .done => true
  | _ => false

/-- The invariant of `serveCodec` on well-formed requests `reqs`: each `Seq`
occurs among the requests as often as among the responses handed to `Write`,
the responses not yet handed to `Write`, the request being dispatched and the
requests still to be read together; and nothing is left to read once the loop
has been left. -/
def SeqInv (reqs : List (Header × String)) (s : State) : Prop :=
  s.main ≠ .handshake ∧
  ∃ rest, WellFormed s.cc.conn.dec rest ∧
    (s.main.pastLoop = true → rest = []) ∧
    ∀ n, (reqs.map (fun r => r.1.Seq)).count n =
      (seqsOf s.trace).count n + (s.units.map (fun u => (u.pc.unsent u.req).count n)).sum +
      s.main.heldSeqs.count n + (rest.map (fun r => r.1.Seq)).count n

/-- The `Write` calls of goroutine `unit i` in a trace: header and body. -/
def writesBy (i : Nat) (tr : List Event) : List (Header × Body) :=
  ((writesOf tr).filter (fun w => w.1 = Tid.unit i)).map (fun w => w.2)

/-- The headers that `ReadHeader` has delivered in a trace, in order. -/
def okHeaders (tr : List Event) : List Header :=
  tr.filterMap (fun e => match e.op with
    | .readHeader (.ok h) => some h
    | _ => none)

/-- The goroutine has entered `cc.Write`. -/
def UnitPc.called : UnitPc → Bool
  | .entry => false
  | .send _ _ .lock => false
  | .send _ _ (.write .encodeHeader) => false
  | _ => true

/-- The header of the request `serveCodec` has read and not yet dispatched. -/
def MainPc.heldHeaders : MainPc → List Header
  | .add r => [r.h]
  | .go r => [r.h]
  | _ => []

/-- The `Write` calls expected of a `handleRequest` goroutine: none before it
has entered `Write`, and then the one with the header of its request and the
reply of `handleRequest`; none of a goroutine that was never started. -/
def expectedWrites : Option Goroutine → List (Header × Body)
  | some u => if u.pc.called then [(u.req.h, .str (reply u.req.h))] else []
  | none => []

/-- The invariant of `handleRequest`: inside `sendResponse` the arguments are
the header of the request and the reply; the `Write` calls of each goroutine
are the expected ones; and the headers read are those of the goroutines
started, in order, followed by the one being dispatched. -/
structure ReplyInv (s : State) : Prop where
  args : ∀ (i : Nat) (u : Goroutine) (h : Header) (b : Body) (sp : SendPc),
    s.units[i]? = some u → u.pc = .send h b sp → h = u.req.h ∧ b = .str (reply u.req.h)
  writes : ∀ i, writesBy i s.trace = expectedWrites s.units[i]?
  headers : okHeaders s.trace = s.units.map (fun u => u.req.h) ++ s.main.heldHeaders

/-- The operations of the `ServeConn` goroutine in a trace, in order. -/
def mainOps (tr : List Event) : List Op :=
  (tr.filter (fun e => e.who = Tid.main)).map (fun e => e.op)

/-- The chunks of complete responses: for each `Write` call its header chunk
followed by its body chunk. -/
def frames : List (Tid × Header × Body) → List Chunk
  | [] => []
  | (t, h, b) :: ws => .hdr t h :: .body t b :: frames ws

/-- The `Seq` values of the header chunks of a stream, in order. -/
def headerSeqs : List Chunk → List Nat
  | [] => []
  | .hdr _ h :: cs => h.Seq :: headerSeqs cs
  | .body _ _ :: cs => headerSeqs cs

/-- What the stream (`wire`) and the buffer (`buf`) hold while goroutine
`unit i` is inside the critical section at `pc`, when no encoding has failed:
`W0` is what the stream held at first and `ws` are the `Write` calls so far.
Before the header is encoded and after the flush the buffer is empty and the
stream holds the frames of all calls; in between the frame of the last call,
which is this goroutine's, is in the buffer as far as it is encoded.  A
goroutine is at no place of a failed `Write`. -/
def Mid (W0 wire buf : List Chunk) (ws : List (Tid × Header × Body)) (i : Nat) :
    UnitPc → Prop
  | .send h b (.write .encodeBody) =>
    ∃ ws1, ws = ws1 ++ [(.unit i, h, b)] ∧ wire = W0 ++ frames ws1 ∧ buf = [.hdr (.unit i) h]
  | .send h b (.write (.flush none)) =>
    ∃ ws1, ws = ws1 ++ [(.unit i, h, b)] ∧ wire = W0 ++ frames ws1 ∧
      buf = [.hdr (.unit i) h, .body (.unit i) b]
  | .send _ _ (.write (.flush (some _))) => False
  | .send _ _ (.write (.closeOnErr _)) => False
  | _ => buf = [] ∧ wire = W0 ++ frames ws

/-- `Mid` for every goroutine in the critical section. -/
def MidAll (W0 wire buf : List Chunk) (ws : List (Tid × Header × Body))
    (units : List Goroutine) : Prop :=
  ∀ (i : Nat) (u : Goroutine), units[i]? = some u → u.pc.inCS = true →
    Mid W0 wire buf ws i u.pc

/-- The invariant of the stream in `serveCodec`, `W0` being what the stream
held when `serveCodec` was entered with an empty buffer: as long as no encoding
has failed, whenever the mutex is free the buffer is empty and the stream holds
`W0` followed by the frames of all `Write` calls so far, in their order; and
while a goroutine is in the critical section, `Mid` holds of it. -/
def WireInv (W0 : List Chunk) (s : State) : Prop :=
  s.main ≠ .handshake ∧
  (failedWrites s.trace = 0 →
    (s.sending = none → s.cc.buf = [] ∧ s.cc.conn.wire = W0 ++ frames (writesOf s.trace)) ∧
    MidAll W0 s.cc.conn.wire s.cc.buf (writesOf s.trace) s.units)

/-! ## Example connections -/

/-- A codec on a connection that delivers one request, header `h` and body
`body`, and then ends. -/
def oneRequest (h : Header) (body : String) : GobCodec :=
  NewGobCodec
    { opt := .ok ⟨MagicNumber, GobType⟩,
      dec := [⟨.ok h, .err (.other "gob: type mismatch")⟩,
              ⟨.err (.other "gob: type mismatch"), .ok body⟩],
      wire := [], closes := 0 }

/-- The schedule that lets `serveCodec` read one request and the end of the
stream, then lets the `handleRequest` goroutine run to its end, then lets
`serveCodec` pass `wg.Wait()`; no encoding fails. -/
def serveOne : List Choice :=
  [⟨.main, none⟩, ⟨.main, none⟩, ⟨.main, none⟩, ⟨.main, none⟩,
   ⟨.unit 0, none⟩, ⟨.unit 0, none⟩, ⟨.unit 0, none⟩, ⟨.unit 0, none⟩, ⟨.unit 0, none⟩,
   ⟨.unit 0, none⟩, ⟨.unit 0, none⟩, ⟨.main, none⟩]

/-- A codec on a connection that delivers the header `h` and then fails to
decode the body, with error `e`, and then ends. -/
def badBody (h : Header) (e : GoError) : GobCodec :=
  NewGobCodec
    { opt := .ok ⟨MagicNumber, GobType⟩,
      dec := [⟨.ok h, .err (.other "gob: type mismatch")⟩,
              ⟨.err (.other "gob: type mismatch"), .err e⟩],
      wire := [], closes := 0 }

/-- The decodings of the four requests that `main.go` sends (lines 43-51):
`Foo.Sum` with `Seq` 1 to 4 and body `geerpc req <Seq>`. -/
def mainGoRequests : List (Header × String) :=
  [(⟨"Foo.Sum", 1, ""⟩, "geerpc req 1"), (⟨"Foo.Sum", 2, ""⟩, "geerpc req 2"),
   (⟨"Foo.Sum", 3, ""⟩, "geerpc req 3"), (⟨"Foo.Sum", 4, ""⟩, "geerpc req 4")]

/-- The decodings that deliver the given requests. -/
def decodingsOf : List (Header × String) → List Decoding
  | [] => []
  | (h, b) :: rs =>
    ⟨.ok h, .err (.other "gob: type mismatch")⟩ ::
      ⟨.err (.other "gob: type mismatch"), .ok b⟩ :: decodingsOf rs

/-- The steps of the `handleRequest` goroutine `i` from its start to its end
when no encoding fails. -/
def unitRun (i : Nat) : List Choice := List.replicate 7 ⟨.unit i, none⟩

/-- The steps of `serveCodec` that read and dispatch one request. -/
def dispatchOne : List Choice := List.replicate 3 ⟨.main, none⟩

/-- A schedule for the four requests of `main.go`: all are read and
dispatched, the goroutines then run in the order 2, 0, 3, 1, and `serveCodec`
reads the end of the stream and passes `wg.Wait()`. -/
def mainGoSchedule : List Choice :=
  dispatchOne ++ dispatchOne ++ dispatchOne ++ dispatchOne ++
  unitRun 2 ++ unitRun 0 ++ unitRun 3 ++ unitRun 1 ++ [⟨.main, none⟩, ⟨.main, none⟩]

/-- A schedule of `ServeConn` for two requests in which the first
`handleRequest` goroutine fails to encode its header, so that its `Write`
closes the codec, and the second goroutine has then locked the mutex and is
about to enter `Write`. -/
def failThenWrite : List Choice :=
  [⟨.main, none⟩] ++ dispatchOne ++ dispatchOne ++ [⟨.main, none⟩] ++
  [⟨.unit 0, none⟩, ⟨.unit 0, none⟩, ⟨.unit 0, some (.other "broken pipe")⟩, ⟨.unit 0, none⟩,
   ⟨.unit 0, none⟩, ⟨.unit 0, none⟩, ⟨.unit 0, none⟩, ⟨.unit 1, none⟩, ⟨.unit 1, none⟩]

/-- The schedule `failThenWrite` continued until `ServeConn` has returned. -/
def failThenFinish : List Choice :=
  failThenWrite ++ List.replicate 5 ⟨.unit 1, none⟩ ++ List.replicate 3 ⟨.main, none⟩

end Geerpc

namespace Geeorm

/-! ## schema/schema.go -/

/-- A `reflect.StructField` as far as `Parse` reads it: its name, its type (by
name, `Type_`), its tag, and whether it is an embedded field. -/
structure StructField where
  Name : String
  Type_ : String
  Tag : String
  Anonymous : Bool
deriving DecidableEq, Repr

/-- A struct type as `reflect` presents it: its name and its fields in the
order of declaration (`NumField`, `Field(i)`). -/
structure StructType where
  Name : String
  Fields : List StructField
deriving DecidableEq, Repr

/-- The values `dest` handed to `Parse`, as far as `reflect` distinguishes
them: a struct value, a non-nil pointer to a struct, a nil pointer to a struct,
or anything else.  `tableName` is the result of `dest.TableName()` when the
dynamic type of `dest` implements `ITableName` (line 49). -/
inductive Dest
  | value (t : StructType) (tableName : Option String)
  | pointer (t : StructType) (tableName : Option String)
  | nilPointer (t : StructType) (tableName : Option String)
  | other
deriving DecidableEq, Repr

/-- The struct `Field` (`schema.go` lines 10-14). -/
structure Field where
  Name : String
  Type_ : String
  Tag : String
deriving DecidableEq, Repr

/-- The struct `Schema` (`schema.go` lines 17-23).  The Go map `fieldMap` is an
association list in which the binding of a key is the first pair with that
key. -/
structure Schema where
  Model : Dest
  Name : String
  Fields : List Field
  FieldNames : List String
  fieldMap : List (String × Field)
deriving DecidableEq, Repr

/-- The method `GetField` (`schema.go` lines 26-28); `none` is the nil pointer a
map yields for an absent key. -/
def Schema.GetField (schema : Schema) (name : String) : Option Field :=
  schema.fieldMap.lookup name

/-- The type `reflect.Indirect(reflect.ValueOf(dest)).Type()` when it is a
struct type (`schema.go` line 47); `none` when `Type()` or the later
`NumField()` panics: a nil pointer, or a value that is neither a struct nor a
pointer to one. -/
def Dest.modelType : Dest → Option StructType
  | .value t _ => some t
  | .pointer t _ => some t
  | .nilPointer _ _ => none
  | .other => none

/-- The result of the type assertion `dest.(ITableName)` followed by
`t.TableName()` (`schema.go` lines 49-54). -/
def Dest.tableName : Dest → Option String
  | .value _ n => n
  | .pointer _ n => n
  | .nilPointer _ n => n
  | .other => none

/-- One pass of the loop body of `Parse` (`schema.go` lines 63-75) for the
field `p`.  `isExported` is `ast.IsExported`, `dataTypeOf` is the dialect's
`DataTypeOf` applied to a zero value of the field's type, `tagLookup` is
`reflect.StructTag.Lookup`. -/
def parseField (isExported : String → Bool) (dataTypeOf : String → String)
    (tagLookup : String → String → Option String) (schema : Schema) (p : StructField) :
    Schema :=
  if !p.Anonymous && isExported p.Name then
    let field : Field := { Name := p.Name, Type_ := dataTypeOf p.Type_, Tag := "" }
    let field : Field :=
      match tagLookup p.Tag "geeorm" with
      | some v => { field with Tag := v }
      | none => field
    { schema with Fields := schema.Fields ++ [field],
                  FieldNames := schema.FieldNames ++ [p.Name],
                  fieldMap := (p.Name, field) :: schema.fieldMap }
  else schema

/-- The function `Parse` (`schema.go` lines 45-78); `none` when it panics. -/
def Parse (isExported : String → Bool) (dataTypeOf : String → String)
    (tagLookup : String → String → Option String) (dest : Dest) : Option Schema :=
  match dest.modelType with
  | none => none
  | some modelType =>
    let tableName :=
      match dest.tableName with
      | none => modelType.Name
      | some n => n
    let schema : Schema :=
      { Model := dest, Name := tableName, Fields := [], FieldNames := [], fieldMap := [] }
    some (modelType.Fields.foldl (parseField isExported dataTypeOf tagLookup) schema)

/-- The field of the schema that `Parse` makes of the struct field `p`. -/
def fieldOf (dataTypeOf : String → String) (tagLookup : String → String → Option String)
    (p : StructField) : Field :=
  match tagLookup p.Tag "geeorm" with
  | some v => { Name := p.Name, Type_ := dataTypeOf p.Type_, Tag := v }
  | none => { Name := p.Name, Type_ := dataTypeOf p.Type_, Tag := "" }

/-- The struct fields that `Parse` keeps: exported and not embedded. -/
def kept (isExported : String → Bool) (fields : List StructField) : List StructField :=
  fields.filter (fun p => !p.Anonymous && isExported p.Name)

/-- The struct `User` of the geeorm tests: `Name string` with the tag
`geeorm:"PRIMARY KEY"` and `Age int`, preceded here by an embedded field and an
unexported one. -/
def userType : StructType :=
  { Name := "User",
    Fields := [⟨"Base", "Base", "", true⟩, ⟨"Name", "string", "geeorm:\"PRIMARY KEY\"", false⟩,
               ⟨"secret", "int", "", false⟩, ⟨"Age", "int", "", false⟩] }

end Geeorm

/-! # Theorems -/

namespace Geerpc

/-- A list with an element `u` at index `i` is `l1 ++ u :: l2` with `l1` of
length `i`, and setting index `i` replaces `u`. -/
theorem set_decomp {α : Type} (l : List α) (i : Nat) (u : α) (h : l[i]? = some u) :
    ∃ l1 l2, l = l1 ++ u :: l2 ∧ l1.length = i ∧ ∀ v, l.set i v = l1 ++ v :: l2 := by
  induction l generalizing i with
  | nil => simp at h
  | cons a l ih =>
    cases i with
    | zero =>
      simp at h
      exact ⟨[], l, by simp [h], rfl, by simp⟩
    | succ i =>
      simp at h
      obtain ⟨l1, l2, h1, h2, h3⟩ := ih i h
      exact ⟨a :: l1, l2, by simp [h1], by simp [h2], by intro v; simp [h3]⟩

/-- `readRequest` never returns a request together with an error: line 131
returns `req, nil` also when `ReadBody` failed. -/
theorem readRequest_no_req_err (cc cc1 : GobCodec) (req : request) (e : GoError) (ops : List Op) :
    readRequest cc ≠ (cc1, (some req, some e), ops) := by
  unfold readRequest readRequestHeader
  cases cc.ReadHeader with
  | mk c r =>
    cases r with
    | err e1 => simp
    | ok h =>
      simp only
      cases c.ReadBody with
      | mk c2 r2 => cases r2 <;> simp

/-- `readRequest` never returns neither a request nor an error. -/
theorem readRequest_no_nil_nil (cc cc1 : GobCodec) (ops : List Op) :
    readRequest cc ≠ (cc1, (none, none), ops) := by
  unfold readRequest readRequestHeader
  cases cc.ReadHeader with
  | mk c r =>
    cases r with
    | err e1 => simp
    | ok h =>
      simp only
      cases c.ReadBody with
      | mk c2 r2 => cases r2 <;> simp

/-- Every step of `step` is one of the cases of `Trans`. -/
theorem step_trans (s s1 : State) (c : Choice) (h : step s c = some s1) : Trans s c s1 := by
  obtain ⟨t, fail⟩ := c
  cases t with
  | main =>
    simp only [step, ServeConn] at h
    split at h
    · rename_i hm
      split at h
      · rename_i hh
        simp only [Option.some.injEq] at h
        subst h
        exact Trans.hsFail s fail hm hh
      · rename_i f hh
        simp only [Option.some.injEq] at h
        subst h
        exact Trans.hsOk s fail f hm hh
    · rename_i hm
      split at h
      · rename_i cc1 e ops hr
        simp only [Option.some.injEq] at h
        subst h
        exact Trans.readErr s fail cc1 e ops hm hr
      · rename_i cc1 req e ops hr
        simp only [Option.some.injEq] at h
        subst h
        exact Trans.readBad s fail cc1 req e ops hm hr
      · rename_i cc1 req ops hr
        simp only [Option.some.injEq] at h
        subst h
        exact Trans.readOk s fail cc1 req ops hm hr
      · simp at h
    · rename_i hb sp hm
      exact Trans.mainSend s fail _ _ _ s1 hm
    · rename_i req hm
      simp only [Option.some.injEq] at h
      subst h
      exact Trans.add s fail req hm
    · rename_i req hm
      simp only [Option.some.injEq] at h
      subst h
      exact Trans.go s fail req hm
    · rename_i hm
      split at h
      · rename_i hw
        simp only [Option.some.injEq] at h
        subst h
        exact Trans.wait s fail hm hw
      · simp at h
    · rename_i hm
      simp only [Option.some.injEq] at h
      subst h
      exact Trans.close s fail hm
    · rename_i hm
      simp only [Option.some.injEq] at h
      subst h
      exact Trans.deferred s fail hm
    · simp at h
  | unit i =>
    simp only [step] at h
    split at h
    · simp at h
    · rename_i u hu
      obtain ⟨l1, l2, hl, hlen, hset⟩ := set_decomp s.units i u hu
      subst hlen
      obtain ⟨r, pc⟩ := u
      cases pc with
      | entry =>
        simp only [handleRequest, Option.some.injEq, hset] at h
        subst h
        exact Trans.entry s fail l1 l2 r hl
      | send hd body sp =>
        cases sp with
        | lock =>
          simp only [handleRequest, sendResponse] at h
          split at h
          · simp at h
          · rename_i s2 sp1 hs
            split at hs
            · rename_i hnone
              simp only [Option.some.injEq, Prod.mk.injEq] at hs
              obtain ⟨hs1, hs2⟩ := hs
              simp only [Option.some.injEq] at h
              subst hs1 hs2 h
              simp only [hset]
              exact Trans.lock s fail l1 l2 r hd body hl hnone
            · simp at hs
          · rename_i s2 hs
            split at hs <;> simp at hs
        | unlock =>
          simp only [handleRequest, sendResponse, Option.some.injEq, hset] at h
          subst h
          exact Trans.unlock s fail l1 l2 r hd body hl
        | write w =>
          cases w with
          | encodeHeader =>
            cases fail with
            | none =>
              simp only [handleRequest, sendResponse, GobCodec.writeStep, Option.some.injEq,
                hset, List.map] at h
              subst h
              exact Trans.encHeaderOk s l1 l2 r hd body hl
            | some e =>
              simp only [handleRequest, sendResponse, GobCodec.writeStep, Option.some.injEq,
                hset, List.map] at h
              subst h
              exact Trans.encHeaderFail s e l1 l2 r hd body hl
          | encodeBody =>
            cases fail with
            | none =>
              simp only [handleRequest, sendResponse, GobCodec.writeStep, Option.some.injEq,
                hset, List.map] at h
              subst h
              exact Trans.encBodyOk s l1 l2 r hd body hl
            | some e =>
              simp only [handleRequest, sendResponse, GobCodec.writeStep, Option.some.injEq,
                hset, List.map] at h
              subst h
              exact Trans.encBodyFail s e l1 l2 r hd body hl
          | flush err =>
            cases err with
            | none =>
              simp only [handleRequest, sendResponse, GobCodec.writeStep, Option.some.injEq,
                hset, List.map] at h
              subst h
              exact Trans.flushOk s fail l1 l2 r hd body hl
            | some e =>
              simp only [handleRequest, sendResponse, GobCodec.writeStep, Option.some.injEq,
                hset, List.map] at h
              subst h
              exact Trans.flushErr s fail e l1 l2 r hd body hl
          | closeOnErr e =>
            simp only [handleRequest, sendResponse, GobCodec.writeStep, Option.some.injEq,
              hset, List.map] at h
            subst h
            exact Trans.closeOnErr s fail e l1 l2 r hd body hl
      | wgDone =>
        simp only [handleRequest, Option.some.injEq, hset] at h
        subst h
        exact Trans.wgDone s fail l1 l2 r hl
      | finished => simp [handleRequest] at h

/-- Replacing the element after `l1` changes only the index `l1.length`. -/
theorem getElem?_replace {α : Type} (l1 l2 : List α) (u v : α) (i : Nat) :
    (l1 ++ v :: l2)[i]? = if i = l1.length then some v else (l1 ++ u :: l2)[i]? := by
  rw [List.getElem?_append, List.getElem?_append]
  by_cases h1 : i < l1.length
  · have : i ≠ l1.length := by omega
    simp [h1, this]
  · by_cases h2 : i = l1.length
    · simp [h2]
    · have h3 : i - l1.length = (i - l1.length - 1) + 1 := by omega
      simp only [h1, h2, if_false]
      rw [h3]
      simp

/-- The element after `l1`. -/
theorem getElem?_mid {α : Type} (l1 l2 : List α) (u : α) :
    (l1 ++ u :: l2)[l1.length]? = some u := by
  rw [List.getElem?_append_right (le_refl _)]
  simp

/-- The invariant holds when `ServeConn` is called. -/
theorem inv_ServeConn_init (opt : Result ConnOption) (dec : List Decoding) :
    Inv (ServeConn_init opt dec) := by
  constructor <;> simp [ServeConn_init, goPending, Excl, Held]

/-- The invariant holds when `serveCodec` is entered. -/
theorem inv_serveCodec_init (cc : GobCodec) : Inv (serveCodec_init cc) := by
  constructor <;> simp [serveCodec_init, goPending, Excl, Held]




theorem excl_same (l1 l2 : List Goroutine) (u v : Goroutine) (sending : Option Tid)
    (hcs : v.pc.inCS = u.pc.inCS) (h : Excl (l1 ++ u :: l2) sending) :
    Excl (l1 ++ v :: l2) sending := by
  intro i w hw hin
  rw [getElem?_replace l1 l2 u v i] at hw
  by_cases hi : i = l1.length
  · simp only [hi, if_true, Option.some.injEq] at hw
    subst hw
    rw [hi]
    exact h l1.length u (getElem?_mid _ _ _) (by rw [← hcs]; exact hin)
  · simp only [hi, if_false] at hw
    exact h i w hw hin

theorem held_same (l1 l2 : List Goroutine) (u v : Goroutine) (sending : Option Tid)
    (hcs : v.pc.inCS = u.pc.inCS) (h : Held (l1 ++ u :: l2) sending) :
    Held (l1 ++ v :: l2) sending := by
  intro i hs
  obtain ⟨w, hw, hin⟩ := h i hs
  by_cases hi : i = l1.length
  · subst hi
    rw [getElem?_mid] at hw
    simp only [Option.some.injEq] at hw
    subst hw
    exact ⟨v, getElem?_mid _ _ _, by rw [hcs]; exact hin⟩
  · refine ⟨w, ?_, hin⟩
    rw [getElem?_replace l1 l2 u v i]
    simp only [hi, if_false]
    exact hw

theorem excl_lock (l1 l2 : List Goroutine) (u v : Goroutine)
    (h : Excl (l1 ++ u :: l2) none) :
    Excl (l1 ++ v :: l2) (some (.unit l1.length)) := by
  intro i w hw hin
  rw [getElem?_replace l1 l2 u v i] at hw
  by_cases hi : i = l1.length
  · rw [hi]
  · simp only [hi, if_false] at hw
    exact absurd (h i w hw hin) (by simp)

theorem held_lock (l1 l2 : List Goroutine) (v : Goroutine) (hv : v.pc.inCS = true) :
    Held (l1 ++ v :: l2) (some (.unit l1.length)) := by
  intro i hs
  simp only [Option.some.injEq, Tid.unit.injEq] at hs
  subst hs
  exact ⟨v, getElem?_mid _ _ _, hv⟩

theorem excl_unlock (l1 l2 : List Goroutine) (u v : Goroutine) (sending : Option Tid)
    (hu : u.pc.inCS = true) (hv : v.pc.inCS = false) (h : Excl (l1 ++ u :: l2) sending) :
    Excl (l1 ++ v :: l2) none := by
  intro i w hw hin
  rw [getElem?_replace l1 l2 u v i] at hw
  by_cases hi : i = l1.length
  · simp only [hi, if_true, Option.some.injEq] at hw
    subst hw
    rw [hv] at hin
    exact absurd hin (by simp)
  · simp only [hi, if_false] at hw
    have h1 := h i w hw hin
    have h2 := h l1.length u (getElem?_mid _ _ _) hu
    rw [h1] at h2
    simp only [Option.some.injEq, Tid.unit.injEq] at h2
    exact absurd h2 hi

theorem held_none (units : List Goroutine) : Held units none := by
  intro i hs
  simp at hs

theorem excl_go (units : List Goroutine) (v : Goroutine) (sending : Option Tid)
    (hv : v.pc.inCS = false) (h : Excl units sending) : Excl (units ++ [v]) sending := by
  intro i w hw hin
  rw [List.getElem?_append] at hw
  by_cases hi : i < units.length
  · simp only [hi, if_true] at hw
    exact h i w hw hin
  · simp only [hi, if_false] at hw
    by_cases h0 : i - units.length = 0
    · rw [h0] at hw
      simp only [List.getElem?_cons_zero, Option.some.injEq] at hw
      subst hw
      rw [hv] at hin
      exact absurd hin (by simp)
    · obtain ⟨k, hk⟩ := Nat.exists_eq_succ_of_ne_zero h0
      rw [hk] at hw
      simp at hw

theorem held_go (units : List Goroutine) (v : Goroutine) (sending : Option Tid)
    (h : Held units sending) : Held (units ++ [v]) sending := by
  intro i hs
  obtain ⟨w, hw, hin⟩ := h i hs
  refine ⟨w, ?_, hin⟩
  have hlt : i < units.length := by
    by_contra hc
    rw [List.getElem?_eq_none (by omega)] at hw
    simp at hw
  rw [List.getElem?_append_left hlt]
  exact hw

theorem inv_excl (s s1 : State) (c : Choice) (hI : Inv s) (ht : Trans s c s1) :
    Excl s1.units s1.sending := by
  have hns := hI.noSend
  have hex := hI.excl
  cases ht with
  | readBad => exact absurd ‹readRequest _ = _› (readRequest_no_req_err _ _ _ _ _)
  | mainSend => exact absurd ‹s.main = _› (hns _ _ _)
  | go => exact excl_go _ _ _ rfl hex
  | lock =>
    rw [‹s.units = _›, ‹s.sending = _›] at hex
    exact excl_lock _ _ _ _ hex
  | unlock =>
    rw [‹s.units = _›] at hex
    refine excl_unlock _ _ _ _ _ ?_ ?_ hex <;> rfl
  | entry | encHeaderOk | encHeaderFail | encBodyOk | encBodyFail | flushOk | flushErr
  | closeOnErr | wgDone =>
    rw [‹s.units = _›] at hex
    refine excl_same _ _ _ _ _ ?_ hex
    rfl
  | _ => exact hex

theorem inv_held (s s1 : State) (c : Choice) (hI : Inv s) (ht : Trans s c s1) :
    Held s1.units s1.sending := by
  have hns := hI.noSend
  have hex := hI.held
  cases ht with
  | readBad => exact absurd ‹readRequest _ = _› (readRequest_no_req_err _ _ _ _ _)
  | mainSend => exact absurd ‹s.main = _› (hns _ _ _)
  | go => exact held_go _ _ _ hex
  | lock => exact held_lock _ _ _ rfl
  | unlock => exact held_none _
  | entry | encHeaderOk | encHeaderFail | encBodyOk | encBodyFail | flushOk | flushErr
  | closeOnErr | wgDone =>
    rw [‹s.units = _›] at hex
    refine held_same _ _ _ _ _ ?_ hex
    rfl
  | _ => exact hex

theorem inv_notMain (s s1 : State) (c : Choice) (hI : Inv s) (ht : Trans s c s1) :
    s1.sending ≠ some .main := by
  have hns := hI.noSend
  have hnm := hI.notMain
  cases ht with
  | readBad => exact absurd ‹readRequest _ = _› (readRequest_no_req_err _ _ _ _ _)
  | mainSend => exact absurd ‹s.main = _› (hns _ _ _)
  | _ => first | exact hnm | simp

theorem inv_wgEq (s s1 : State) (c : Choice) (hI : Inv s) (ht : Trans s c s1) :
    s1.wg = (s1.units.filter (fun u => u.pc ≠ .finished)).length + goPending s1.main := by
  have hns := hI.noSend
  have hwg := hI.wgEq
  cases ht with
  | readBad => exact absurd ‹readRequest _ = _› (readRequest_no_req_err _ _ _ _ _)
  | mainSend => exact absurd ‹s.main = _› (hns _ _ _)
  | entry | lock | encHeaderOk | encHeaderFail | encBodyOk | encBodyFail | flushOk | flushErr
  | closeOnErr | unlock | wgDone =>
    rw [‹s.units = _›] at hwg
    simp [List.filter_append, List.filter_cons] at hwg ⊢
    omega
  | _ =>
    rw [‹s.main = _›] at hwg
    simp [goPending, List.filter_append, List.filter_cons] at hwg ⊢
    omega

theorem inv_noSend (s s1 : State) (c : Choice) (hI : Inv s) (ht : Trans s c s1) :
    ∀ h b sp, s1.main ≠ .send h b sp := by
  have hns := hI.noSend
  cases ht with
  | readBad => exact absurd ‹readRequest _ = _› (readRequest_no_req_err _ _ _ _ _)
  | mainSend => exact absurd ‹s.main = _› (hns _ _ _)
  | _ => first | exact hns | simp

theorem inv_wgZero (s s1 : State) (c : Choice) (hI : Inv s) (ht : Trans s c s1) :
    s1.main.quiet = true → s1.wg = 0 := by
  have hns := hI.noSend
  have hw := hI.wgZero
  cases ht with
  | readBad => exact absurd ‹readRequest _ = _› (readRequest_no_req_err _ _ _ _ _)
  | mainSend => exact absurd ‹s.main = _› (hns _ _ _)
  | wgDone =>
    intro h
    have := hw h
    show s.wg - 1 = 0
    omega
  | wait => intro _; assumption
  | hsFail => intro _; exact hw (by rw [‹s.main = _›]; rfl)
  | close => intro _; exact hw (by rw [‹s.main = _›]; rfl)
  | deferred => intro _; exact hw (by rw [‹s.main = _›]; rfl)
  | _ => first | exact hw | simp [MainPc.quiet]

/-- Every step keeps the invariant. -/
theorem inv_trans (s s1 : State) (c : Choice) (hI : Inv s) (ht : Trans s c s1) : Inv s1 :=
  ⟨inv_noSend s s1 c hI ht, inv_excl s s1 c hI ht, inv_held s s1 c hI ht,
    inv_notMain s s1 c hI ht, inv_wgEq s s1 c hI ht, inv_wgZero s s1 c hI ht⟩

/-- The invariant holds after every schedule. -/
theorem inv_run (sched : List Choice) (s s1 : State) (hI : Inv s) (h : run s sched = some s1) :
    Inv s1 := by
  induction sched generalizing s with
  | nil =>
    simp only [run, Option.some.injEq] at h
    subst h
    exact hI
  | cons c cs ih =>
    simp only [run] at h
    split at h
    · simp at h
    · rename_i s2 hs
      exact ih s2 (inv_trans s s2 c hI (step_trans s s2 c hs)) h


/-- What `readRequest` changes of the codec: it only consumes decodings, at
least one when it returns a request. -/
theorem readRequest_codec (cc : GobCodec) :
    (readRequest cc).1.buf = cc.buf ∧ (readRequest cc).1.conn.wire = cc.conn.wire ∧
    (readRequest cc).1.conn.closes = cc.conn.closes ∧
    (readRequest cc).1.conn.opt = cc.conn.opt ∧
    (readRequest cc).1.conn.dec.length ≤ cc.conn.dec.length ∧
    ((readRequest cc).2.1.1.isSome = true →
      (readRequest cc).1.conn.dec.length < cc.conn.dec.length) := by
  obtain ⟨⟨opt, dec, wire, closes⟩, buf⟩ := cc
  cases dec with
  | nil => simp [readRequest, readRequestHeader, GobCodec.ReadHeader]
  | cons d rest =>
    obtain ⟨ah, as⟩ := d
    cases ah with
    | err e => simp [readRequest, readRequestHeader, GobCodec.ReadHeader]
    | ok h =>
      cases rest with
      | nil => simp [readRequest, readRequestHeader, GobCodec.ReadHeader, GobCodec.ReadBody]
      | cons d2 rest2 =>
        obtain ⟨ah2, as2⟩ := d2
        cases as2 <;>
          simp [readRequest, readRequestHeader, GobCodec.ReadHeader, GobCodec.ReadBody] <;> omega

/-- The only constructor the handshake can select is `NewGobCodec`. -/
theorem handshake_some (opt : Result ConnOption) (f : Conn → GobCodec)
    (h : handshake opt = some f) : f = NewGobCodec := by
  unfold handshake at h
  cases opt with
  | err e => simp at h
  | ok o =>
    simp only at h
    split at h
    · simp at h
    · simp only [NewCodecFuncMap, List.lookup] at h
      split at h
      · simp only [Option.some.injEq] at h
        exact h.symm
      · simp at h

/-- Every step takes the bound on the steps left down. -/
theorem stepsLeft_trans (s s1 : State) (c : Choice) (hI : Inv s) (ht : Trans s c s1) :
    stepsLeft s1 < stepsLeft s := by
  have hns := hI.noSend
  unfold stepsLeft
  cases ht with
  | readBad => exact absurd ‹readRequest _ = _› (readRequest_no_req_err _ _ _ _ _)
  | mainSend => exact absurd ‹s.main = _› (hns _ _ _)
  | entry | lock | encHeaderOk | encHeaderFail | encBodyOk | encBodyFail | flushOk | flushErr
  | closeOnErr | unlock | wgDone =>
    rw [‹s.units = _›]
    simp [UnitPc.rank, SendPc.rank, WritePc.rank, GobCodec.Flush, GobCodec.Close, Conn.Close]
  | hsOk =>
    have hf := handshake_some _ _ ‹handshake _ = _›
    subst hf
    rw [‹s.main = _›]
    simp [MainPc.rank, NewGobCodec]
  | readErr =>
    have h := readRequest_codec s.cc
    rw [‹readRequest _ = _›] at h
    rw [‹s.main = _›]
    simp [MainPc.rank] at h ⊢
  | readOk =>
    have h := readRequest_codec s.cc
    rw [‹readRequest _ = _›] at h
    rw [‹s.main = _›]
    simp [MainPc.rank] at h ⊢
    omega
  | _ =>
    rw [‹s.main = _›]
    simp [MainPc.rank, UnitPc.rank, GobCodec.Close, Conn.Close]
    try omega

/-- A schedule that can be run is no longer than the bound on the steps
left, and what it leaves of the bound is the bound of the state reached. -/
theorem run_length (sched : List Choice) (s s1 : State) (hI : Inv s)
    (h : run s sched = some s1) : sched.length + stepsLeft s1 ≤ stepsLeft s := by
  induction sched generalizing s with
  | nil =>
    simp only [run, Option.some.injEq] at h
    subst h
    simp
  | cons c cs ih =>
    simp only [run] at h
    split at h
    · simp at h
    · rename_i s2 hs
      have ht := step_trans s s2 c hs
      have h1 := ih s2 (inv_trans s s2 c hI ht) h
      have h2 := stepsLeft_trans s s2 c hI ht
      simp only [List.length_cons]
      omega


/-- A goroutine that has not ended can perform its next operation, unless it
waits for a mutex that is held. -/
theorem unit_can_step (s : State) (i : Nat) (u : Goroutine) (hu : s.units[i]? = some u)
    (hf : u.pc ≠ .finished) (hl : ∀ h b, u.pc = .send h b .lock → s.sending = none) :
    (step s ⟨.unit i, none⟩).isSome = true := by
  obtain ⟨r, pc⟩ := u
  simp only [step, hu]
  cases pc with
  | entry => simp [handleRequest]
  | wgDone => simp [handleRequest]
  | finished => simp at hf
  | send h b sp =>
    cases sp with
    | lock => simp [handleRequest, sendResponse, hl h b rfl]
    | unlock => simp [handleRequest, sendResponse]
    | write w =>
      cases w with
      | encodeHeader => simp [handleRequest, sendResponse, GobCodec.writeStep]
      | encodeBody => simp [handleRequest, sendResponse, GobCodec.writeStep]
      | flush err => cases err <;> simp [handleRequest, sendResponse, GobCodec.writeStep]
      | closeOnErr e => simp [handleRequest, sendResponse, GobCodec.writeStep]

/-- Until `ServeConn` has returned some goroutine can perform its next
operation: the connection never deadlocks. -/
theorem progress (s : State) (hI : Inv s) (hm : s.main ≠ .done) :
    ∃ c, (step s c).isSome = true := by
  cases hmain : s.main with
  | done => exact absurd hmain hm
  | send h b sp => exact absurd hmain (hI.noSend h b sp)
  | handshake =>
    refine ⟨⟨.main, none⟩, ?_⟩
    simp only [step, ServeConn, hmain]
    split <;> simp
  | read =>
    refine ⟨⟨.main, none⟩, ?_⟩
    simp only [step, ServeConn, hmain]
    split
    · simp
    · simp
    · simp
    · rename_i hr
      exact absurd hr (readRequest_no_nil_nil _ _ _)
  | add req => exact ⟨⟨.main, none⟩, by simp [step, ServeConn, hmain]⟩
  | go req => exact ⟨⟨.main, none⟩, by simp [step, ServeConn, hmain]⟩
  | close => exact ⟨⟨.main, none⟩, by simp [step, ServeConn, hmain]⟩
  | deferred => exact ⟨⟨.main, none⟩, by simp [step, ServeConn, hmain]⟩
  | wait =>
    by_cases hw : s.wg = 0
    · exact ⟨⟨.main, none⟩, by simp [step, ServeConn, hmain, hw]⟩
    · have hwg := hI.wgEq
      rw [hmain] at hwg
      simp only [goPending, add_zero] at hwg
      have hpos : 0 < (s.units.filter (fun u => u.pc ≠ .finished)).length := by omega
      obtain ⟨u, hmem⟩ := List.exists_mem_of_length_pos hpos
      rw [List.mem_filter] at hmem
      obtain ⟨hin, hne⟩ := hmem
      simp only [ne_eq, decide_not, Bool.not_eq_true', decide_eq_false_iff_not] at hne
      obtain ⟨i, hlt, hget⟩ := List.getElem_of_mem hin
      have hu : s.units[i]? = some u := by
        rw [List.getElem?_eq_getElem hlt, hget]
      by_cases hs : s.sending = none
      · exact ⟨_, unit_can_step s i u hu hne (fun _ _ _ => hs)⟩
      · cases hsend : s.sending with
        | none => exact absurd hsend hs
        | some t =>
          cases t with
          | main => exact absurd hsend hI.notMain
          | unit j =>
            obtain ⟨w, hw1, hw2⟩ := hI.held j hsend
            refine ⟨_, unit_can_step s j w hw1 ?_ ?_⟩
            · intro hc
              rw [hc] at hw2
              simp [UnitPc.inCS] at hw2
            · intro h b hc
              rw [hc] at hw2
              simp [UnitPc.inCS] at hw2

/-- When `ServeConn` is past `wg.Wait()`, every `handleRequest` goroutine has
ended. -/
theorem all_finished (s : State) (hI : Inv s) (hq : s.main.quiet = true) :
    ∀ u ∈ s.units, u.pc = .finished := by
  have h0 := hI.wgZero hq
  have hwg := hI.wgEq
  rw [h0] at hwg
  have hlen : (s.units.filter (fun u => u.pc ≠ .finished)).length = 0 := by omega
  intro u hu
  by_contra hne
  have : u ∈ s.units.filter (fun u => u.pc ≠ .finished) := by
    rw [List.mem_filter]
    exact ⟨hu, by simpa using hne⟩
  rw [List.length_eq_zero] at hlen
  rw [hlen] at this
  simp at this


/-- C5: `GobCodec.Write` encodes the header, then the body, and flushes the
buffer exactly once, after the encodings, whatever their outcome.  When both
encodings succeed the codec is not closed and `nil` is returned.  When the
header fails the body is not encoded; when either fails the flush is still
performed, then the codec is closed, and the encoding error is returned. -/
theorem C5_Write_flushes_then_closes_on_error (c : GobCodec) (who : Tid) (h : Header)
    (body : Body) (eh eb : Option GoError) :
    ∃ c1 err ops, c.Write who h body eh eb = some (c1, err, ops) ∧
      ops.count .flush = 1 ∧ c1.buf = [] ∧ c1.conn.dec = c.conn.dec ∧
      (eh = none → eb = none →
        err = none ∧ c1.conn.closes = c.conn.closes ∧
        ops = [.write h body, .encodeHeader none, .encodeBody none, .flush] ∧
        c1.conn.wire = c.conn.wire ++ c.buf ++ [.hdr who h, .body who body]) ∧
      (∀ e, eh = some e →
        err = some e ∧ c1.conn.closes = c.conn.closes + 1 ∧
        ops = [.write h body, .encodeHeader (some e), .flush, .closeInWrite] ∧
        c1.conn.wire = c.conn.wire ++ c.buf) ∧
      (∀ e, eh = none → eb = some e →
        err = some e ∧ c1.conn.closes = c.conn.closes + 1 ∧
        ops = [.write h body, .encodeHeader none, .encodeBody (some e), .flush, .closeInWrite] ∧
        c1.conn.wire = c.conn.wire ++ c.buf ++ [.hdr who h]) := by
  cases eh with
  | some e =>
    refine ⟨_, _, _, rfl, ?_⟩
    simp [GobCodec.Flush, GobCodec.Close, Conn.Close]
  | none =>
    cases eb with
    | some e =>
      refine ⟨_, _, _, rfl, ?_⟩
      simp [GobCodec.Flush, GobCodec.Close, Conn.Close]
    | none =>
      refine ⟨_, _, _, rfl, ?_⟩
      simp [GobCodec.Flush, GobCodec.Close, Conn.Close]


/-- The handshake selects a constructor exactly for the accepted preambles. -/
theorem handshake_isSome_iff (opt : Result ConnOption) :
    (∃ f, handshake opt = some f) ↔ Accepted opt := by
  unfold Accepted handshake
  cases opt with
  | err e => simp
  | ok o =>
    obtain ⟨m, t⟩ := o
    by_cases hm : m = MagicNumber
    · by_cases ht : t = GobType
      · subst hm ht
        simp [NewCodecFuncMap, List.lookup, MagicNumber]
      · have ht2 : (t == GobType) = false := by simpa using ht
        simp [NewCodecFuncMap, List.lookup, hm, MagicNumber, ht, ht2]
    · have hm2 : ¬ m = 0x3bef5c := hm
      simp [hm, hm2]

/-- A rejected connection stays in the states of `Rejected`. -/
theorem rejected_run (opt : Result ConnOption) (dec : List Decoding) (hrej : handshake opt = none)
    (sched : List Choice) (s s1 : State) (hs : Rejected opt dec s) (h : run s sched = some s1) :
    Rejected opt dec s1 := by
  induction sched generalizing s with
  | nil =>
    simp only [run, Option.some.injEq] at h
    subst h
    exact hs
  | cons c cs ih =>
    simp only [run] at h
    split at h
    · simp at h
    · rename_i s2 hstep
      refine ih s2 ?_ h
      obtain ⟨hw, hb, hd, ho, hu, hcase⟩ := hs
      have ht := step_trans s s2 c hstep
      cases ht with
      | hsFail =>
        have hx := ‹s.main = _›
        rcases hcase with ⟨hm, htr, hc⟩ | ⟨hm, htr, hc⟩ | ⟨hm, htr, hc⟩
        · exact ⟨hw, hb, hd, ho, hu, Or.inr (Or.inl ⟨rfl, by simp [htr, ho], hc⟩)⟩
        · rw [hm] at hx; simp at hx
        · rw [hm] at hx; simp at hx
      | hsOk =>
        have hx := ‹handshake _ = _›
        rw [ho, hrej] at hx
        simp at hx
      | deferred =>
        have hx := ‹s.main = _›
        rcases hcase with ⟨hm, htr, hc⟩ | ⟨hm, htr, hc⟩ | ⟨hm, htr, hc⟩
        · rw [hm] at hx; simp at hx
        · exact ⟨hw, hb, hd, ho, hu,
            Or.inr (Or.inr ⟨rfl, by simp [htr], by simp [Conn.Close, hc]⟩)⟩
        · rw [hm] at hx; simp at hx
      | entry | lock | encHeaderOk | encHeaderFail | encBodyOk | encBodyFail | flushOk
      | flushErr | closeOnErr | unlock | wgDone =>
        have hx := ‹s.units = _›
        rw [hu] at hx
        simp at hx
      | _ =>
        have hx := ‹s.main = _›
        rcases hcase with ⟨hm, htr, hc⟩ | ⟨hm, htr, hc⟩ | ⟨hm, htr, hc⟩ <;>
          (rw [hm] at hx; simp at hx)

/-- C4: `ServeConn` constructs a codec and enters `serveCodec` if and only if
the option decodes, its magic number is `0x3bef5c` and its codec type is a key
of the registry, whose only key is `"application/gob"` (so
`"application/json"` is rejected).  Otherwise, whatever the schedule, nothing
is written to the stream, no header or body is read, and the only operations
are decoding the option and then closing the stream once; these two steps can
always be taken. -/
theorem C4_handshake_gate (opt : Result ConnOption) (dec : List Decoding)
    (fail : Option GoError) :
    ((∃ s t, step (ServeConn_init opt dec) ⟨.main, fail⟩ = some s ∧ s.main = .read ∧
        s.cc = NewGobCodec ⟨opt, dec, [], 0⟩ ∧
        s.trace = [⟨.main, .decodeOption opt⟩, ⟨.main, .newCodec t⟩]) ↔ Accepted opt) ∧
    NewCodecFuncMap.map Prod.fst = ["application/gob"] ∧
    ¬ Accepted (.ok ⟨MagicNumber, JsonType⟩) ∧
    (¬ Accepted opt →
      (∀ sched s, run (ServeConn_init opt dec) sched = some s → Rejected opt dec s) ∧
      ∃ s, run (ServeConn_init opt dec) [⟨.main, fail⟩, ⟨.main, fail⟩] = some s ∧
        s.main = .done ∧ s.cc.conn.closes = 1) := by
  refine ⟨?_, rfl, ?_, ?_⟩
  · rw [← handshake_isSome_iff]
    constructor
    · rintro ⟨s, t, hs, hm, _, _⟩
      cases hh : handshake opt with
      | some f => exact ⟨f, rfl⟩
      | none =>
        simp [step, ServeConn, ServeConn_init, hh] at hs
        rw [← hs] at hm
        simp at hm
    · rintro ⟨f, hf⟩
      have hf2 := handshake_some _ _ hf
      subst hf2
      simp [step, ServeConn, ServeConn_init, hf, NewGobCodec]
  · rw [← handshake_isSome_iff]
    simp [handshake, MagicNumber, NewCodecFuncMap, List.lookup, GobType, JsonType]
  · intro hna
    rw [← handshake_isSome_iff] at hna
    have hrej : handshake opt = none := by
      cases hh : handshake opt with
      | none => rfl
      | some f => exact absurd ⟨f, hh⟩ hna
    have h0 : Rejected opt dec (ServeConn_init opt dec) := by
      simp [Rejected, ServeConn_init]
    refine ⟨fun sched s h => rejected_run opt dec hrej sched _ s h0 h, ?_⟩
    simp [run, step, ServeConn, ServeConn_init, hrej, Conn.Close]


/-- A property of states that every step keeps holds after every schedule. -/
theorem run_induction (P : State → Prop)
    (hstep : ∀ s s1 c, Inv s → P s → Trans s c s1 → P s1)
    (sched : List Choice) (s s1 : State) (hI : Inv s) (hP : P s)
    (h : run s sched = some s1) : P s1 := by
  induction sched generalizing s with
  | nil =>
    simp only [run, Option.some.injEq] at h
    subst h
    exact hP
  | cons c cs ih =>
    simp only [run] at h
    split at h
    · simp at h
    · rename_i s2 hs
      have ht := step_trans s s2 c hs
      exact ih s2 (inv_trans s s2 c hI ht) (hstep s s2 c hI hP ht) h

/-- The operations of `readRequest` are reads. -/
theorem readRequest_ops (cc : GobCodec) : ∀ op ∈ (readRequest cc).2.2, op.isRead = true := by
  obtain ⟨⟨opt, dec, wire, closes⟩, buf⟩ := cc
  cases dec with
  | nil => simp [readRequest, readRequestHeader, GobCodec.ReadHeader, Op.isRead]
  | cons d rest =>
    obtain ⟨ah, as⟩ := d
    cases ah with
    | err e => simp [readRequest, readRequestHeader, GobCodec.ReadHeader, Op.isRead]
    | ok h =>
      cases rest with
      | nil =>
        simp [readRequest, readRequestHeader, GobCodec.ReadHeader, GobCodec.ReadBody, Op.isRead]
      | cons d2 rest2 =>
        obtain ⟨ah2, as2⟩ := d2
        cases as2 <;>
          simp [readRequest, readRequestHeader, GobCodec.ReadHeader, GobCodec.ReadBody,
            Op.isRead]

/-- Reads do not count for a predicate that holds of no read. -/
theorem countOp_reads (p : Op → Bool) (hp : ∀ op, op.isRead = true → p op = false)
    (t : Tid) (ops : List Op) (hops : ∀ op ∈ ops, op.isRead = true) (tr : List Event) :
    countOp p (tr ++ ops.map (Event.mk t)) = countOp p tr := by
  unfold countOp
  rw [List.countP_append]
  have : List.countP (fun e => p e.op) (ops.map (Event.mk t)) = 0 := by
    rw [List.countP_eq_zero]
    intro e he
    rw [List.mem_map] at he
    obtain ⟨op, hop, rfl⟩ := he
    simp [hp op (hops op hop)]
  omega

/-- Every step keeps the accounting of the `Close` calls. -/
theorem closeInv_trans (s s1 : State) (c : Choice) (hI : Inv s) (hC : CloseInv s)
    (ht : Trans s c s1) : CloseInv s1 := by
  have hns := hI.noSend
  obtain ⟨h1, h2, h3⟩ := hC
  cases ht with
  | readBad => exact absurd ‹readRequest _ = _› (readRequest_no_req_err _ _ _ _ _)
  | mainSend => exact absurd ‹s.main = _› (hns _ _ _)
  | entry | lock | encHeaderOk | encHeaderFail | encBodyOk | encBodyFail | flushOk | flushErr
  | closeOnErr | unlock | wgDone =>
    have hu := ‹s.units = _›
    rw [hu] at h2
    unfold failedWrites countOp at *
    refine ⟨?_, ?_, ?_⟩
    · simp [failedWrites, countOp, List.countP_append, List.countP_cons, Op.isCloseInWrite,
        Op.isCloseServeCodec, Op.isCloseServeConn, GobCodec.Flush, GobCodec.Close,
        Conn.Close] at h1 ⊢
      omega
    · simp [failedWrites, countOp, List.countP_append, List.countP_cons, Op.isCloseInWrite,
        Op.isFailedEncode, UnitPc.failing, List.filter_append, List.filter_cons] at h2 ⊢
      omega
    · simpa [countOp, List.countP_append, List.countP_cons,
        Op.isCloseServeCodec, Op.isCloseServeConn] using h3
  | readErr | readOk =>
    have hm := ‹s.main = _›
    have hr := ‹readRequest _ = _›
    have hc := readRequest_codec s.cc
    have ho := readRequest_ops s.cc
    rw [hr] at hc ho
    rw [hm] at h3
    simp only [MainPc.quiet] at h3
    unfold failedWrites at *
    refine ⟨?_, ?_, ?_⟩
    · simp only []
      rw [countOp_reads _ (by intro op; cases op <;> simp [Op.isRead, Op.isCloseInWrite]) _ _ ho,
        countOp_reads _ (by intro op; cases op <;> simp [Op.isRead, Op.isCloseServeCodec]) _ _ ho,
        countOp_reads _ (by intro op; cases op <;> simp [Op.isRead, Op.isCloseServeConn]) _ _ ho,
        hc.2.2.1]
      exact h1
    · unfold failedWrites
      simp only []
      rw [countOp_reads _ (by intro op; cases op <;> simp [Op.isRead, Op.isCloseInWrite]) _ _ ho,
        countOp_reads _ (by intro op; cases op <;> simp [Op.isRead, Op.isFailedEncode]) _ _ ho]
      exact h2
    · simp only []
      rw [countOp_reads _ (by intro op; cases op <;> simp [Op.isRead, Op.isCloseServeCodec]) _ _ ho,
        countOp_reads _ (by intro op; cases op <;> simp [Op.isRead, Op.isCloseServeConn]) _ _ ho]
      intro hpos
      simpa using h3 hpos
  | hsOk =>
    have hm := ‹s.main = _›
    have hf := handshake_some _ _ ‹handshake _ = _›
    subst hf
    rw [hm] at h3
    refine ⟨?_, ?_, ?_⟩
    · simpa [countOp, List.countP_append, List.countP_cons, Op.isCloseInWrite,
        Op.isCloseServeCodec, Op.isCloseServeConn, NewGobCodec] using h1
    · simpa [countOp, failedWrites, List.countP_append, List.countP_cons, Op.isCloseInWrite,
        Op.isFailedEncode] using h2
    · simpa [countOp, List.countP_append, List.countP_cons, MainPc.quiet,
        Op.isCloseServeCodec, Op.isCloseServeConn] using h3
  | _ =>
    have hm := ‹s.main = _›
    rw [hm] at h3
    refine ⟨?_, ?_, ?_⟩
    · simp [countOp, List.countP_append, List.countP_cons, Op.isCloseInWrite,
        Op.isCloseServeCodec, Op.isCloseServeConn, GobCodec.Close, Conn.Close] at h1 ⊢
      omega
    · simpa [countOp, failedWrites, List.countP_append, List.countP_cons, Op.isCloseInWrite,
        Op.isFailedEncode, List.filter_append, List.filter_cons, UnitPc.failing] using h2
    · first
      | (intro _; simp [MainPc.quiet]; done)
      | (intro hpos
         have h3' := h3 (by simpa [countOp, List.countP_append, List.countP_cons,
           Op.isCloseServeCodec, Op.isCloseServeConn] using hpos)
         simp [MainPc.quiet] at h3')


/-- Every step keeps `AcceptedInv`. -/
theorem acceptedInv_trans (s s1 : State) (c : Choice) (hI : Inv s) (hA : AcceptedInv s)
    (ht : Trans s c s1) : AcceptedInv s1 := by
  have hns := hI.noSend
  obtain ⟨h1, h2, h3⟩ := hA
  cases ht with
  | readBad => exact absurd ‹readRequest _ = _› (readRequest_no_req_err _ _ _ _ _)
  | mainSend => exact absurd ‹s.main = _› (hns _ _ _)
  | hsFail => exact absurd ‹handshake _ = _› (h1 ‹s.main = _›)
  | entry | lock | encHeaderOk | encHeaderFail | encBodyOk | encBodyFail | flushOk | flushErr
  | closeOnErr | unlock | wgDone =>
    refine ⟨?_, ?_, ?_⟩
    · simpa [GobCodec.Flush, GobCodec.Close, Conn.Close] using h1
    · simpa [countOp, List.countP_append, List.countP_cons, Op.isCloseServeCodec] using h2
    · simpa [countOp, List.countP_append, List.countP_cons, Op.isCloseServeConn] using h3
  | readErr | readOk =>
    have hm := ‹s.main = _›
    have ho := readRequest_ops s.cc
    rw [‹readRequest _ = _›] at ho
    rw [hm] at h2 h3
    refine ⟨?_, ?_, ?_⟩
    · simp
    · simp only []
      rw [countOp_reads _ (by intro op; cases op <;> simp [Op.isRead, Op.isCloseServeCodec]) _ _ ho]
      simpa using h2
    · simp only []
      rw [countOp_reads _ (by intro op; cases op <;> simp [Op.isRead, Op.isCloseServeConn]) _ _ ho]
      simpa using h3
  | _ =>
    have hm := ‹s.main = _›
    rw [hm] at h2 h3
    refine ⟨?_, ?_, ?_⟩
    · simp
    · simpa [countOp, List.countP_append, List.countP_cons, Op.isCloseServeCodec] using h2
    · simpa [countOp, List.countP_append, List.countP_cons, Op.isCloseServeConn] using h3

/-- C6 (as amended): on a connection whose handshake is accepted, when
`ServeConn` has returned the stream's `Close` has been invoked once by
`serveCodec`, once by the deferred call of `ServeConn`, and once inside each
`Write` call whose encoding failed: twice plus the number of failed `Write`
calls in all, and never exactly once. -/
theorem C6_close_twice_plus_failed_writes (opt : Result ConnOption) (dec : List Decoding)
    (hacc : Accepted opt) (sched : List Choice) (s : State)
    (hrun : run (ServeConn_init opt dec) sched = some s) (hdone : s.main = .done) :
    countOp Op.isCloseServeCodec s.trace = 1 ∧ countOp Op.isCloseServeConn s.trace = 1 ∧
    countOp Op.isCloseInWrite s.trace = failedWrites s.trace ∧
    s.cc.conn.closes = 2 + failedWrites s.trace := by
  have hI0 := inv_ServeConn_init opt dec
  have hI := inv_run sched _ s hI0 hrun
  have hC : CloseInv s := by
    refine run_induction CloseInv closeInv_trans sched _ s hI0 ?_ hrun
    constructor <;> simp [ServeConn_init, countOp, failedWrites]
  have hA : AcceptedInv s := by
    refine run_induction AcceptedInv acceptedInv_trans sched _ s hI0 ?_ hrun
    constructor
    · intro _
      obtain ⟨f, hf⟩ := (handshake_isSome_iff opt).mpr hacc
      simp [ServeConn_init, hf]
    · simp [ServeConn_init, countOp]
    · simp [ServeConn_init, countOp]
  have hfin := all_finished s hI (by rw [hdone]; rfl)
  have hnone : s.units.filter (fun u => u.pc.failing) = [] := by
    rw [List.filter_eq_nil_iff]
    intro u hu
    rw [hfin u hu]
    simp [UnitPc.failing]
  have h1 := hC.total
  have h2 := hC.pending
  have h3 := hA.sc
  have h4 := hA.scn
  rw [hnone] at h2
  rw [hdone] at h3 h4
  simp at h2 h3 h4
  refine ⟨h3, h4, h2, ?_⟩
  omega


/-- The goroutine that moved is not about to encode its body: the others see
the same last chunk as before. -/
theorem lastHdr_leave (l1 l2 : List Goroutine) (u v : Goroutine) (r : List Chunk)
    (hv : ∀ h b, v.pc ≠ .send h b (.write .encodeBody)) (h : LastHdr (l1 ++ u :: l2) r) :
    LastHdr (l1 ++ v :: l2) r := by
  intro i w hd b hw hpc
  rw [getElem?_replace l1 l2 u v i] at hw
  by_cases hi : i = l1.length
  · simp only [hi, if_true, Option.some.injEq] at hw
    subst hw
    exact absurd hpc (hv hd b)
  · simp only [hi, if_false] at hw
    exact h i w hd b hw hpc

/-- The goroutine that moved holds the mutex: no other goroutine is about to
encode its body. -/
theorem lastHdr_holder (l1 l2 : List Goroutine) (u v : Goroutine) (sending : Option Tid)
    (r : List Chunk) (hu : u.pc.inCS = true) (hex : Excl (l1 ++ u :: l2) sending)
    (hv : ∀ h b, v.pc = .send h b (.write .encodeBody) →
      r.head? = some (.hdr (.unit l1.length) h)) :
    LastHdr (l1 ++ v :: l2) r := by
  intro i w hd b hw hpc
  rw [getElem?_replace l1 l2 u v i] at hw
  by_cases hi : i = l1.length
  · simp only [hi, if_true, Option.some.injEq] at hw
    subst hw
    rw [hi]
    exact hv hd b hpc
  · simp only [hi, if_false] at hw
    have h1 := hex i w hw (by rw [hpc]; rfl)
    have h2 := hex l1.length u (getElem?_mid _ _ _) hu
    rw [h1] at h2
    simp only [Option.some.injEq, Tid.unit.injEq] at h2
    exact absurd h2 hi

/-- A goroutine that has just been started is not about to encode its body. -/
theorem lastHdr_go (units : List Goroutine) (v : Goroutine) (r : List Chunk)
    (hv : ∀ h b, v.pc ≠ .send h b (.write .encodeBody)) (h : LastHdr units r) :
    LastHdr (units ++ [v]) r := by
  intro i w hd b hw hpc
  rw [List.getElem?_append] at hw
  by_cases hi : i < units.length
  · simp only [hi, if_true] at hw
    exact h i w hd b hw hpc
  · simp only [hi, if_false] at hw
    by_cases h0 : i - units.length = 0
    · rw [h0] at hw
      simp only [List.getElem?_cons_zero, Option.some.injEq] at hw
      subst hw
      exact absurd hpc (hv hd b)
    · obtain ⟨k, hk⟩ := Nat.exists_eq_succ_of_ne_zero h0
      rw [hk] at hw
      simp at hw

/-- Every step keeps the invariant of the written chunks. -/
theorem frameInv_trans (s s1 : State) (c : Choice) (hI : Inv s) (hF : FrameInv s)
    (ht : Trans s c s1) : FrameInv s1 := by
  have hns := hI.noSend
  have hex := hI.excl
  obtain ⟨h1, h2, h3⟩ := hF
  cases ht with
  | readBad => exact absurd ‹readRequest _ = _› (readRequest_no_req_err _ _ _ _ _)
  | mainSend => exact absurd ‹s.main = _› (hns _ _ _)
  | encHeaderOk =>
    have hu := ‹s.units = _›
    rw [hu] at hex
    refine ⟨?_, ?_, ?_⟩
    · simpa [framedRev, ← List.append_assoc] using h1
    · refine lastHdr_holder _ _ _ _ _ _ ?_ hex ?_
      · rfl
      · intro h b hpc
        simp only [UnitPc.send.injEq] at hpc
        simp [← List.append_assoc, hpc.1]
    · intro hm
      have := (h3 hm).2
      rw [hu] at this
      simp at this
  | encBodyOk =>
    have hu := ‹s.units = _›
    rw [hu] at hex h2
    have hl := h2 _ _ _ _ (getElem?_mid _ _ _) rfl
    refine ⟨?_, ?_, ?_⟩
    · cases hr : (s.cc.conn.wire ++ s.cc.buf).reverse with
      | nil => rw [hr] at hl; simp at hl
      | cons x rest =>
        rw [hr] at hl h1
        simp only [List.head?_cons, Option.some.injEq] at hl
        subst hl
        show framedRev (s.cc.conn.wire ++ (s.cc.buf ++ [_])).reverse = true
        rw [← List.append_assoc, List.reverse_append, hr]
        simpa [framedRev] using h1
    · refine lastHdr_holder _ _ _ _ _ _ ?_ hex ?_
      · rfl
      · intro h b hpc
        simp at hpc
    · intro hm
      have := (h3 hm).2
      rw [hu] at this
      simp at this
  | entry | lock | encHeaderFail | encBodyFail | flushOk | flushErr
  | closeOnErr | unlock | wgDone =>
    have hu := ‹s.units = _›
    refine ⟨?_, ?_, ?_⟩
    · simpa [GobCodec.Flush, GobCodec.Close] using h1
    · rw [hu] at h2
      try simp only [GobCodec.Flush, GobCodec.Close, Conn.Close, List.append_nil]
      refine lastHdr_leave _ _ _ _ _ ?_ h2
      simp
    · intro hm
      have := (h3 hm).2
      rw [hu] at this
      simp at this
  | readErr | readOk =>
    have hc := readRequest_codec s.cc
    rw [‹readRequest _ = _›] at hc
    simp only [] at hc
    refine ⟨?_, ?_, ?_⟩
    · simpa [hc.1, hc.2.1] using h1
    · simpa [hc.1, hc.2.1] using h2
    · simp
  | hsOk =>
    have hf := handshake_some _ _ ‹handshake _ = _›
    subst hf
    have hb := (h3 ‹s.main = _›).1
    rw [hb] at h1 h2
    refine ⟨?_, ?_, ?_⟩
    · simpa [NewGobCodec] using h1
    · simpa [NewGobCodec] using h2
    · simp
  | go =>
    refine ⟨h1, lastHdr_go _ _ _ (by simp) h2, by simp⟩
  | hsFail | add | wait | close | deferred =>
    refine ⟨?_, ?_, ?_⟩
    · exact h1
    · exact h2
    · simp


/-- Reads leave the mutex as it is. -/
theorem lockScan_reads (t : Tid) (ops : List Op) (hops : ∀ op ∈ ops, op.isRead = true)
    (hd : Option Tid) : (ops.map (Event.mk t)).foldl lockStep (some hd) = some hd := by
  induction ops with
  | nil => rfl
  | cons op ops ih =>
    have h1 := hops op (by simp)
    have h2 : ∀ op1 ∈ ops, op1.isRead = true := fun op1 h => hops op1 (by simp [h])
    cases op <;> simp [Op.isRead] at h1 <;> simpa [lockStep] using ih h2

/-- Every step keeps the trace in line with the mutex. -/
theorem lockScan_trans (s s1 : State) (c : Choice) (hI : Inv s)
    (hL : lockScan s.trace = some s.sending) (ht : Trans s c s1) :
    lockScan s1.trace = some s1.sending := by
  have hns := hI.noSend
  have hex := hI.excl
  unfold lockScan at *
  cases ht with
  | readBad => exact absurd ‹readRequest _ = _› (readRequest_no_req_err _ _ _ _ _)
  | mainSend => exact absurd ‹s.main = _› (hns _ _ _)
  | lock =>
    simp [List.foldl_append, hL, lockStep, ‹s.sending = _›]
  | encHeaderOk | encHeaderFail | encBodyOk | encBodyFail | flushOk | flushErr | closeOnErr
  | unlock =>
    have hu := ‹s.units = _›
    rw [hu] at hex
    have hs := hex _ _ (getElem?_mid _ _ _) rfl
    simp [List.foldl_append, hL, lockStep, hs]
  | readErr | readOk =>
    have ho := readRequest_ops s.cc
    rw [‹readRequest _ = _›] at ho
    simp only [List.foldl_append, hL]
    exact lockScan_reads _ _ ho _
  | _ => simp [List.foldl_append, hL, lockStep]

/-- In a framed stream the chunk before a body is the header of the same
caller (the stream is given most recent chunk first). -/
theorem framedRev_body (r : List Chunk) (h : framedRev r = true) :
    ∀ a t b c, r = a ++ .body t b :: c → ∃ hd c1, c = .hdr t hd :: c1 := by
  induction r using framedRev.induct with
  | case1 => intro a t b c hr; simp at hr
  | case2 t0 b0 t1 h1 rest ih =>
    simp only [framedRev, Bool.and_eq_true, decide_eq_true_eq] at h
    intro a t b c hr
    cases a with
    | nil =>
      simp only [List.nil_append, List.cons.injEq, Chunk.body.injEq] at hr
      obtain ⟨⟨ht, _⟩, hc⟩ := hr
      exact ⟨h1, rest, by rw [← hc, ← ht, h.1]⟩
    | cons x a1 =>
      cases a1 with
      | nil => simp at hr
      | cons y a2 =>
        simp only [List.cons_append, List.cons.injEq] at hr
        exact ih h.2 a2 t b c hr.2.2
  | case3 t0 b0 rest hne =>
    cases rest with
    | nil => simp [framedRev] at h
    | cons x rest1 =>
      cases x with
      | hdr t1 h1 => exact absurd rfl (hne t1 h1 rest1)
      | body t1 b1 => simp [framedRev] at h
  | case4 t0 h0 rest ih =>
    simp only [framedRev] at h
    intro a t b c hr
    cases a with
    | nil => simp at hr
    | cons x a1 =>
      simp only [List.cons_append, List.cons.injEq] at hr
      exact ih h a1 t b c hr.2

/-- In a stream whose reverse is framed the chunk written just before a body
is the header of the same caller. -/
theorem framed_body (l : List Chunk) (h : framedRev l.reverse = true)
    (pre post : List Chunk) (t : Tid) (b : Body) (hl : l = pre ++ .body t b :: post) :
    ∃ pre1 hd, pre = pre1 ++ [.hdr t hd] := by
  have hr : l.reverse = post.reverse ++ .body t b :: pre.reverse := by
    rw [hl]
    simp
  obtain ⟨hd, c1, hc⟩ := framedRev_body _ h _ _ _ _ hr
  refine ⟨c1.reverse, hd, ?_⟩
  have := congrArg List.reverse hc
  simpa using this

/-- C8: every operation of a `Write` call (entering it, encoding the header
and the body, the flush, the close on error) is performed by the goroutine that
holds the mutex `sending`, which is locked only when free and unlocked only by
its holder; a goroutine between `sending.Lock()` and `sending.Unlock()`, so
every goroutine inside `Write`, is the holder, and there is at most one;
hence, whatever the schedule, in the chunks encoded so far (on the stream or
still buffered), and so on the stream, every body chunk comes directly after
the header chunk of the same `Write` caller. -/
theorem C8_writes_hold_mutex_frames_contiguous (opt : Result ConnOption) (dec : List Decoding)
    (sched : List Choice) (s : State)
    (hrun : run (ServeConn_init opt dec) sched = some s) :
    lockScan s.trace = some s.sending ∧
    (∀ (i : Nat) (u : Goroutine), s.units[i]? = some u → u.pc.inCS = true →
      s.sending = some (.unit i)) ∧
    (∀ (i j : Nat) (u v : Goroutine), s.units[i]? = some u → s.units[j]? = some v →
      u.pc.inCS = true → v.pc.inCS = true → i = j) ∧
    (∀ pre post t b, s.cc.conn.wire ++ s.cc.buf = pre ++ .body t b :: post →
      ∃ pre1 hd, pre = pre1 ++ [.hdr t hd]) ∧
    (∀ pre post t b, s.cc.conn.wire = pre ++ .body t b :: post →
      ∃ pre1 hd, pre = pre1 ++ [.hdr t hd]) := by
  have hI0 := inv_ServeConn_init opt dec
  have hI := inv_run sched _ s hI0 hrun
  have hL : lockScan s.trace = some s.sending := by
    refine run_induction (fun s => lockScan s.trace = some s.sending) lockScan_trans
      sched _ s hI0 ?_ hrun
    simp [ServeConn_init, lockScan]
  have hF : FrameInv s := by
    refine run_induction FrameInv frameInv_trans sched _ s hI0 ?_ hrun
    constructor <;> simp [ServeConn_init, framedRev, LastHdr]
  refine ⟨hL, hI.excl, ?_, ?_, ?_⟩
  · intro i j u v hu hv hcu hcv
    have h1 := hI.excl i u hu hcu
    have h2 := hI.excl j v hv hcv
    rw [h1] at h2
    simpa using h2
  · intro pre post t b hl
    exact framed_body _ hF.framed pre post t b hl
  · intro pre post t b hl
    refine framed_body _ hF.framed pre (post ++ s.cc.buf) t b ?_
    rw [hl]
    simp

/-- C9 (as amended): while some `handleRequest` goroutine has not ended,
neither `serveCodec` nor `ServeConn` has closed the stream; every `Close`
invoked so far was invoked inside a `Write` call whose encoding failed, so there
are at most as many as failed encodings (none when no encoding failed). -/
theorem C9_close_waits_for_units (opt : Result ConnOption) (dec : List Decoding)
    (sched : List Choice) (s : State)
    (hrun : run (ServeConn_init opt dec) sched = some s)
    (u : Goroutine) (hu : u ∈ s.units) (hne : u.pc ≠ .finished) :
    countOp Op.isCloseServeCodec s.trace = 0 ∧ countOp Op.isCloseServeConn s.trace = 0 ∧
    s.cc.conn.closes = countOp Op.isCloseInWrite s.trace ∧
    s.cc.conn.closes ≤ failedWrites s.trace := by
  have hI0 := inv_ServeConn_init opt dec
  have hI := inv_run sched _ s hI0 hrun
  have hC : CloseInv s := by
    refine run_induction CloseInv closeInv_trans sched _ s hI0 ?_ hrun
    constructor <;> simp [ServeConn_init, countOp, failedWrites]
  have h0 : countOp Op.isCloseServeCodec s.trace + countOp Op.isCloseServeConn s.trace = 0 := by
    by_contra hc
    have hq := (hC.quietIfClosed (by omega)).1
    exact hne (all_finished s hI hq u hu)
  have h1 := hC.total
  have h2 := hC.pending
  refine ⟨by omega, by omega, by omega, by omega⟩


/-- Reads are no `Write` calls. -/
theorem writesOf_reads (t : Tid) (ops : List Op) (hops : ∀ op ∈ ops, op.isRead = true)
    (tr : List Event) : writesOf (tr ++ ops.map (Event.mk t)) = writesOf tr := by
  unfold writesOf
  rw [List.filterMap_append]
  have : List.filterMap (fun e : Event => match e.op with
      | .write h b => some (e.who, h, b)
      | _ => none) (ops.map (Event.mk t)) = [] := by
    rw [List.filterMap_eq_nil_iff]
    intro e he
    rw [List.mem_map] at he
    obtain ⟨op, hop, rfl⟩ := he
    have h1 := hops op hop
    cases op <;> simp [Op.isRead] at h1 <;> rfl
  rw [this, List.append_nil]

/-- What `readRequest` does on well-formed decodings: at the end of the stream
it returns `io.EOF`, otherwise the next request. -/
theorem readRequest_wellFormed (cc : GobCodec) (rest : List (Header × String))
    (hwf : WellFormed cc.conn.dec rest) :
    (rest = [] ∧ ∃ ops, readRequest cc = (cc, (none, some .EOF), ops)) ∨
    (∃ h b rs cc1 ops, rest = (h, b) :: rs ∧
      readRequest cc = (cc1, (some ⟨h, b, none⟩, none), ops) ∧ WellFormed cc1.conn.dec rs) := by
  obtain ⟨⟨opt, dec, wire, closes⟩, buf⟩ := cc
  cases dec with
  | nil =>
    cases rest with
    | nil => exact Or.inl ⟨rfl, _, rfl⟩
    | cons r rs => simp [WellFormed] at hwf
  | cons d1 ds =>
    cases ds with
    | nil => cases rest <;> simp [WellFormed] at hwf
    | cons d2 ds =>
      cases rest with
      | nil => simp [WellFormed] at hwf
      | cons r rs =>
        obtain ⟨h, b⟩ := r
        simp only [WellFormed] at hwf
        obtain ⟨h1, h2, h3⟩ := hwf
        refine Or.inr ⟨h, b, rs, ⟨⟨opt, ds, wire, closes⟩, buf⟩,
          [.readHeader (.ok h), .readBody (.ok b)], rfl, ?_, h3⟩
        simp [readRequest, readRequestHeader, GobCodec.ReadHeader, GobCodec.ReadBody, h1, h2]

/-- Well-formed decodings are two for each request. -/
theorem wellFormed_length (dec : List Decoding) (reqs : List (Header × String))
    (hwf : WellFormed dec reqs) : dec.length = 2 * reqs.length := by
  induction reqs generalizing dec with
  | nil =>
    cases dec with
    | nil => rfl
    | cons d ds => cases ds <;> simp [WellFormed] at hwf
  | cons r rs ih =>
    cases dec with
    | nil => simp [WellFormed] at hwf
    | cons d1 ds =>
      cases ds with
      | nil => simp [WellFormed] at hwf
      | cons d2 ds =>
        obtain ⟨h, b⟩ := r
        simp only [WellFormed] at hwf
        have := ih ds hwf.2.2
        simp only [List.length_cons, this]
        omega

/-- Every step keeps the invariant of `serveCodec` on well-formed requests. -/
theorem seqInv_trans (reqs : List (Header × String)) (s s1 : State) (c : Choice) (hI : Inv s)
    (hS : SeqInv reqs s) (ht : Trans s c s1) : SeqInv reqs s1 := by
  have hns := hI.noSend
  obtain ⟨hnh, rest, hwf, hpl, hcnt⟩ := hS
  cases ht with
  | readBad => exact absurd ‹readRequest _ = _› (readRequest_no_req_err _ _ _ _ _)
  | mainSend => exact absurd ‹s.main = _› (hns _ _ _)
  | hsFail => exact absurd ‹s.main = _› hnh
  | hsOk => exact absurd ‹s.main = _› hnh
  | entry | lock | encHeaderOk | encHeaderFail | encBodyOk | encBodyFail | flushOk | flushErr
  | closeOnErr | unlock | wgDone =>
    have hu := ‹s.units = _›
    rw [hu] at hcnt
    refine ⟨hnh, rest, ?_, hpl, ?_⟩
    · simpa [GobCodec.Flush, GobCodec.Close, Conn.Close] using hwf
    · intro n
      have := hcnt n
      simp only [seqsOf, writesOf, List.filterMap_append, List.filterMap_cons,
        List.filterMap_nil, List.map_append, List.map_cons, List.map_nil, List.count_append,
        List.sum_append, List.sum_cons, UnitPc.unsent, List.count_nil, List.append_nil] at this ⊢
      omega
  | readErr =>
    have ho := readRequest_ops s.cc
    have hr := ‹readRequest _ = _›
    rw [hr] at ho
    rcases readRequest_wellFormed s.cc rest hwf with ⟨h0, ops1, h1⟩ | ⟨h, b, rs, cc2, ops1, _, h1, _⟩
    · rw [hr] at h1
      simp only [Prod.mk.injEq] at h1
      rw [h1.1]
      refine ⟨by simp, rest, hwf, fun _ => h0, ?_⟩
      intro n
      have := hcnt n
      rw [‹s.main = _›] at this
      simp only [seqsOf, writesOf_reads _ _ ho]
      simpa [seqsOf, MainPc.heldSeqs] using this
    · rw [hr] at h1
      simp at h1
  | readOk =>
    have ho := readRequest_ops s.cc
    have hr := ‹readRequest _ = _›
    rw [hr] at ho
    rcases readRequest_wellFormed s.cc rest hwf with ⟨h0, ops1, h1⟩ | ⟨h, b, rs, cc2, ops1, h0, h1, h2⟩
    · rw [hr] at h1
      simp at h1
    · rw [hr] at h1
      simp only [Prod.mk.injEq, Option.some.injEq, and_true] at h1
      obtain ⟨h1a, h1b, h1c⟩ := h1
      subst h1a h1b h0
      refine ⟨by simp, rs, h2, by simp [MainPc.pastLoop], ?_⟩
      intro n
      have := hcnt n
      rw [‹s.main = _›] at this
      simp only [seqsOf, writesOf_reads _ _ ho]
      simp only [seqsOf, MainPc.heldSeqs, List.map_cons, List.count_cons, List.count_nil] at this ⊢
      omega
  | go =>
    refine ⟨by simp, rest, hwf, by simp [MainPc.pastLoop], ?_⟩
    intro n
    have := hcnt n
    rw [‹s.main = _›] at this
    simp only [seqsOf, writesOf, List.filterMap_append, List.filterMap_cons,
      List.filterMap_nil, List.map_append, List.map_cons, List.map_nil, List.count_append,
      List.sum_append, List.sum_cons, UnitPc.unsent, List.count_nil, List.append_nil,
      MainPc.heldSeqs, List.sum_nil] at this ⊢
    omega
  | _ =>
    have hm := ‹s.main = _›
    rw [hm] at hpl hcnt
    refine ⟨by simp, rest, ?_, ?_, ?_⟩
    · simpa [GobCodec.Close, Conn.Close] using hwf
    · exact hpl
    · intro n
      have := hcnt n
      simp only [seqsOf, writesOf, List.filterMap_append, List.filterMap_cons,
        List.filterMap_nil, List.map_append, List.map_cons, List.map_nil, List.count_append,
        List.count_nil, List.append_nil, MainPc.heldSeqs] at this ⊢
      omega


/-- The frames of two lists of `Write` calls, one after the other. -/
theorem frames_append (a b : List (Tid × Header × Body)) :
    frames (a ++ b) = frames a ++ frames b := by
  induction a with
  | nil => rfl
  | cons w ws ih =>
    obtain ⟨t, h, bd⟩ := w
    simp [frames, ih]

/-- The header chunks of the frames carry the `Seq` values of the calls. -/
theorem headerSeqs_frames (ws : List (Tid × Header × Body)) :
    headerSeqs (frames ws) = ws.map (fun w => w.2.1.Seq) := by
  induction ws with
  | nil => rfl
  | cons w ws ih =>
    obtain ⟨t, h, bd⟩ := w
    simp [frames, headerSeqs, ih]

/-- Each call has two chunks in the frames. -/
theorem frames_length (ws : List (Tid × Header × Body)) :
    (frames ws).length = 2 * ws.length := by
  induction ws with
  | nil => rfl
  | cons w ws ih =>
    obtain ⟨t, h, bd⟩ := w
    simp only [frames, List.length_cons, ih]
    omega

/-- The goroutine that moved held the mutex: it is the only one that can be in
the critical section. -/
theorem midAll_holder (W0 wire buf : List Chunk) (ws : List (Tid × Header × Body))
    (l1 l2 : List Goroutine) (u v : Goroutine) (sending : Option Tid)
    (hu : u.pc.inCS = true) (hex : Excl (l1 ++ u :: l2) sending)
    (hv : v.pc.inCS = true → Mid W0 wire buf ws l1.length v.pc) :
    MidAll W0 wire buf ws (l1 ++ v :: l2) := by
  intro i w hw hin
  rw [getElem?_replace l1 l2 u v i] at hw
  by_cases hi : i = l1.length
  · simp only [hi, if_true, Option.some.injEq] at hw
    subst hw
    rw [hi]
    exact hv hin
  · simp only [hi, if_false] at hw
    have h1 := hex i w hw hin
    have h2 := hex l1.length u (getElem?_mid _ _ _) hu
    rw [h1] at h2
    simp only [Option.some.injEq, Tid.unit.injEq] at h2
    exact absurd h2 hi

/-- The mutex was free: the goroutine that locked it is the only one in the
critical section. -/
theorem midAll_lock (W0 wire buf : List Chunk) (ws : List (Tid × Header × Body))
    (l1 l2 : List Goroutine) (u v : Goroutine) (hex : Excl (l1 ++ u :: l2) none)
    (hv : Mid W0 wire buf ws l1.length v.pc) :
    MidAll W0 wire buf ws (l1 ++ v :: l2) := by
  intro i w hw hin
  rw [getElem?_replace l1 l2 u v i] at hw
  by_cases hi : i = l1.length
  · simp only [hi, if_true, Option.some.injEq] at hw
    subst hw
    rw [hi]
    exact hv
  · simp only [hi, if_false] at hw
    exact absurd (hex i w hw hin) (by simp)

/-- The goroutine that moved is outside the critical section: the others are
where they were. -/
theorem midAll_same (W0 wire buf : List Chunk) (ws : List (Tid × Header × Body))
    (l1 l2 : List Goroutine) (u v : Goroutine) (hv : v.pc.inCS = false)
    (h : MidAll W0 wire buf ws (l1 ++ u :: l2)) :
    MidAll W0 wire buf ws (l1 ++ v :: l2) := by
  intro i w hw hin
  rw [getElem?_replace l1 l2 u v i] at hw
  by_cases hi : i = l1.length
  · simp only [hi, if_true, Option.some.injEq] at hw
    subst hw
    rw [hv] at hin
    exact absurd hin (by simp)
  · simp only [hi, if_false] at hw
    exact h i w hw hin

/-- A goroutine that has just been started is outside the critical section. -/
theorem midAll_go (W0 wire buf : List Chunk) (ws : List (Tid × Header × Body))
    (units : List Goroutine) (v : Goroutine) (hv : v.pc.inCS = false)
    (h : MidAll W0 wire buf ws units) : MidAll W0 wire buf ws (units ++ [v]) := by
  intro i w hw hin
  rw [List.getElem?_append] at hw
  by_cases hi : i < units.length
  · simp only [hi, if_true] at hw
    exact h i w hw hin
  · simp only [hi, if_false] at hw
    by_cases h0 : i - units.length = 0
    · rw [h0] at hw
      simp only [List.getElem?_cons_zero, Option.some.injEq] at hw
      subst hw
      rw [hv] at hin
      exact absurd hin (by simp)
    · obtain ⟨k, hk⟩ := Nat.exists_eq_succ_of_ne_zero h0
      rw [hk] at hw
      simp at hw

/-- The failed encodings of a trace are among those of any longer trace. -/
theorem failedWrites_append (tr evs : List Event) (h : failedWrites (tr ++ evs) = 0) :
    failedWrites tr = 0 := by
  simp only [failedWrites, countOp, List.countP_append] at h ⊢
  omega

/-- Every step keeps the invariant of the stream. -/
theorem wireInv_trans (W0 : List Chunk) (s s1 : State) (c : Choice) (hI : Inv s)
    (hW : WireInv W0 s) (ht : Trans s c s1) : WireInv W0 s1 := by
  have hns := hI.noSend
  have hex := hI.excl
  obtain ⟨hnh, hw⟩ := hW
  cases ht with
  | readBad => exact absurd ‹readRequest _ = _› (readRequest_no_req_err _ _ _ _ _)
  | mainSend => exact absurd ‹s.main = _› (hns _ _ _)
  | hsFail => exact absurd ‹s.main = _› hnh
  | hsOk => exact absurd ‹s.main = _› hnh
  | encHeaderFail | encBodyFail =>
    refine ⟨hnh, fun hf => ?_⟩
    simp [failedWrites, countOp, List.countP_append, Op.isFailedEncode] at hf
  | entry =>
    rename_i l1 l2 r hu
    refine ⟨hnh, fun hf => ?_⟩
    obtain ⟨h1, h2⟩ := hw hf
    rw [hu] at h2
    exact ⟨h1, midAll_same _ _ _ _ _ _ _ _ rfl h2⟩
  | wgDone =>
    rename_i l1 l2 r hu
    refine ⟨hnh, fun hf => ?_⟩
    obtain ⟨h1, h2⟩ := hw (failedWrites_append _ _ hf)
    rw [hu] at h2
    have hws : writesOf (s.trace ++ [⟨Tid.unit l1.length, Op.wgDone⟩]) = writesOf s.trace := by
      simp [writesOf]
    simp only [hws]
    exact ⟨h1, midAll_same _ _ _ _ _ _ _ _ rfl h2⟩
  | lock =>
    rename_i l1 l2 r hd body hu hs
    refine ⟨hnh, fun hf => ?_⟩
    obtain ⟨h1, h2⟩ := hw (failedWrites_append _ _ hf)
    rw [hu] at hex
    rw [hs] at hex
    have hws : writesOf (s.trace ++ [⟨Tid.unit l1.length, Op.lock⟩]) = writesOf s.trace := by
      simp [writesOf]
    simp only [hws]
    refine ⟨fun hc => by simp at hc, midAll_lock _ _ _ _ _ _ _ _ hex ?_⟩
    exact h1 hs
  | encHeaderOk =>
    rename_i l1 l2 r hd body hu
    refine ⟨hnh, fun hf => ?_⟩
    obtain ⟨h1, h2⟩ := hw (failedWrites_append _ _ hf)
    rw [hu] at hex h2
    have hs := hex _ _ (getElem?_mid _ _ _) rfl
    have hm := h2 _ _ (getElem?_mid _ _ _) rfl
    simp only [Mid] at hm
    have hws : writesOf (s.trace ++ [⟨Tid.unit l1.length, Op.write hd body⟩,
        ⟨Tid.unit l1.length, Op.encodeHeader none⟩]) =
        writesOf s.trace ++ [(Tid.unit l1.length, hd, body)] := by
      simp [writesOf]
    simp only [hws]
    refine ⟨fun hc => by rw [hs] at hc; simp at hc, ?_⟩
    refine midAll_holder _ _ _ _ _ _ _ _ s.sending ?_ hex ?_
    · rfl
    · intro _
      exact ⟨writesOf s.trace, rfl, hm.2, by simp [hm.1]⟩
  | encBodyOk =>
    rename_i l1 l2 r hd body hu
    refine ⟨hnh, fun hf => ?_⟩
    obtain ⟨h1, h2⟩ := hw (failedWrites_append _ _ hf)
    rw [hu] at hex h2
    have hs := hex _ _ (getElem?_mid _ _ _) rfl
    have hm := h2 _ _ (getElem?_mid _ _ _) rfl
    simp only [Mid] at hm
    obtain ⟨ws1, hm1, hm2, hm3⟩ := hm
    have hws : writesOf (s.trace ++ [⟨Tid.unit l1.length, Op.encodeBody none⟩]) =
        writesOf s.trace := by
      simp [writesOf]
    simp only [hws]
    refine ⟨fun hc => by rw [hs] at hc; simp at hc, ?_⟩
    refine midAll_holder _ _ _ _ _ _ _ _ s.sending ?_ hex ?_
    · rfl
    · intro _
      exact ⟨ws1, hm1, hm2, by simp [hm3]⟩
  | flushOk =>
    rename_i l1 l2 r hd body hu
    refine ⟨hnh, fun hf => ?_⟩
    obtain ⟨h1, h2⟩ := hw (failedWrites_append _ _ hf)
    rw [hu] at hex h2
    have hs := hex _ _ (getElem?_mid _ _ _) rfl
    have hm := h2 _ _ (getElem?_mid _ _ _) rfl
    simp only [Mid] at hm
    obtain ⟨ws1, hm1, hm2, hm3⟩ := hm
    have hws : writesOf (s.trace ++ [⟨Tid.unit l1.length, Op.flush⟩]) = writesOf s.trace := by
      simp [writesOf]
    simp only [hws]
    refine ⟨fun hc => by rw [hs] at hc; simp at hc, ?_⟩
    refine midAll_holder _ _ _ _ _ _ _ _ s.sending ?_ hex ?_
    · rfl
    · intro _
      refine ⟨rfl, ?_⟩
      simp [GobCodec.Flush, hm1, hm2, hm3, frames_append, frames]
  | flushErr =>
    rename_i e l1 l2 r hd body hu
    refine ⟨hnh, fun hf => ?_⟩
    obtain ⟨h1, h2⟩ := hw (failedWrites_append _ _ hf)
    rw [hu] at h2
    have hm := h2 _ _ (getElem?_mid _ _ _) rfl
    simp [Mid] at hm
  | closeOnErr =>
    rename_i e l1 l2 r hd body hu
    refine ⟨hnh, fun hf => ?_⟩
    obtain ⟨h1, h2⟩ := hw (failedWrites_append _ _ hf)
    rw [hu] at h2
    have hm := h2 _ _ (getElem?_mid _ _ _) rfl
    simp [Mid] at hm
  | unlock =>
    rename_i l1 l2 r hd body hu
    refine ⟨hnh, fun hf => ?_⟩
    obtain ⟨h1, h2⟩ := hw (failedWrites_append _ _ hf)
    rw [hu] at hex h2
    have hm := h2 _ _ (getElem?_mid _ _ _) rfl
    simp only [Mid] at hm
    have hws : writesOf (s.trace ++ [⟨Tid.unit l1.length, Op.unlock⟩]) = writesOf s.trace := by
      simp [writesOf]
    simp only [hws]
    refine ⟨fun _ => hm, ?_⟩
    refine midAll_holder _ _ _ _ _ _ _ _ s.sending ?_ hex ?_
    · rfl
    · intro hc
      simp [UnitPc.inCS] at hc
  | readErr | readOk =>
    have hc := readRequest_codec s.cc
    have ho := readRequest_ops s.cc
    rw [‹readRequest _ = _›] at hc ho
    simp only [] at hc ho
    refine ⟨by simp, fun hf => ?_⟩
    obtain ⟨h1, h2⟩ := hw (failedWrites_append _ _ hf)
    simp only [writesOf_reads _ _ ho, hc.1, hc.2.1]
    exact ⟨h1, h2⟩
  | go =>
    refine ⟨by simp, fun hf => ?_⟩
    obtain ⟨h1, h2⟩ := hw (failedWrites_append _ _ hf)
    have hws : writesOf (s.trace ++ [⟨Tid.main, Op.go s.units.length⟩]) = writesOf s.trace := by
      simp [writesOf]
    simp only [hws]
    exact ⟨h1, midAll_go _ _ _ _ _ _ rfl h2⟩
  | add =>
    refine ⟨by simp, fun hf => ?_⟩
    obtain ⟨h1, h2⟩ := hw (failedWrites_append _ _ hf)
    have hws : writesOf (s.trace ++ [⟨Tid.main, Op.wgAdd⟩]) = writesOf s.trace := by
      simp [writesOf]
    simp only [hws]
    exact ⟨h1, h2⟩
  | wait =>
    refine ⟨by simp, fun hf => ?_⟩
    exact hw hf
  | close =>
    refine ⟨by simp, fun hf => ?_⟩
    obtain ⟨h1, h2⟩ := hw (failedWrites_append _ _ hf)
    have hws : writesOf (s.trace ++ [⟨Tid.main, Op.closeServeCodec⟩]) = writesOf s.trace := by
      simp [writesOf]
    simp only [hws]
    exact ⟨h1, h2⟩
  | deferred =>
    refine ⟨by simp, fun hf => ?_⟩
    obtain ⟨h1, h2⟩ := hw (failedWrites_append _ _ hf)
    have hws : writesOf (s.trace ++ [⟨Tid.main, Op.closeServeConn⟩]) = writesOf s.trace := by
      simp [writesOf]
    simp only [hws]
    exact ⟨h1, h2⟩

/-- Goroutines that have ended have handed their response to `Write`. -/
theorem unsent_finished (units : List Goroutine) (hfin : ∀ u ∈ units, u.pc = .finished)
    (n : Nat) : (units.map (fun u => (u.pc.unsent u.req).count n)).sum = 0 := by
  induction units with
  | nil => rfl
  | cons u us ih =>
    have h1 := hfin u (by simp)
    have h2 := ih (fun v hv => hfin v (by simp [hv]))
    rw [List.map_cons, List.sum_cons, h2, h1]
    rfl

/-- C1: when `serveCodec` reads `N` well-formed request frames followed by the
end of the stream, then, whatever the schedule and whether or not encodings
fail, once it is about to close the codec (and ever after) exactly `N` `Write`
calls have been made, and the `Seq` values of their headers are a permutation
of the `Seq` values of the request headers; if moreover no encoding has failed
(and the buffer was empty when `serveCodec` was entered, as `NewGobCodec`
leaves it), the buffer is empty again and the stream holds, after what it held
at first, exactly the `N` responses, header chunk then body chunk for each
`Write` call in the order of the calls, so `2 * N` chunks whose header `Seq`
values are a permutation of those of the requests; the codec is closed by
`serveCodec` only past that point; and every schedule can be continued until
`serveCodec` has returned, which takes at most `24 * N + 4` steps. -/
theorem C1_one_response_per_request (cc : GobCodec) (reqs : List (Header × String))
    (hwf : WellFormed cc.conn.dec reqs) (sched : List Choice) (s : State)
    (hrun : run (serveCodec_init cc) sched = some s) :
    (s.main = .close ∨ s.main = .deferred ∨ s.main = .done →
      (writesOf s.trace).length = reqs.length ∧
      (seqsOf s.trace).Perm (reqs.map (fun r => r.1.Seq)) ∧
      (cc.buf = [] → failedWrites s.trace = 0 →
        s.cc.buf = [] ∧
        s.cc.conn.wire = cc.conn.wire ++ frames (writesOf s.trace) ∧
        (frames (writesOf s.trace)).length = 2 * reqs.length ∧
        (headerSeqs (frames (writesOf s.trace))).Perm (reqs.map (fun r => r.1.Seq)))) ∧
    (countOp Op.isCloseServeCodec s.trace =
      if s.main = .deferred ∨ s.main = .done then 1 else 0) ∧
    sched.length ≤ 24 * reqs.length + 4 ∧
    (s.main ≠ .done → ∃ c, (step s c).isSome = true) := by
  have hI0 := inv_serveCodec_init cc
  have hI := inv_run sched _ s hI0 hrun
  have hS : SeqInv reqs s := by
    refine run_induction (SeqInv reqs) (seqInv_trans reqs) sched _ s hI0 ?_ hrun
    refine ⟨by simp [serveCodec_init], reqs, hwf, by simp [serveCodec_init, MainPc.pastLoop], ?_⟩
    intro n
    simp [serveCodec_init, seqsOf, writesOf, MainPc.heldSeqs]
  have hA : AcceptedInv s := by
    refine run_induction AcceptedInv acceptedInv_trans sched _ s hI0 ?_ hrun
    constructor <;> simp [serveCodec_init, countOp]
  have hlen := run_length sched _ s hI0 hrun
  have hdec := wellFormed_length _ _ hwf
  refine ⟨?_, hA.sc, ?_, progress s hI⟩
  · intro hm
    obtain ⟨_, rest, _, hpl, hcnt⟩ := hS
    have hq : s.main.quiet = true := by
      rcases hm with h | h | h <;> rw [h] <;> rfl
    have hp : s.main.pastLoop = true := by
      rcases hm with h | h | h <;> rw [h] <;> rfl
    have hheld : s.main.heldSeqs = [] := by
      rcases hm with h | h | h <;> rw [h] <;> rfl
    have hfin := all_finished s hI hq
    have hrest := hpl hp
    have hperm : (seqsOf s.trace).Perm (reqs.map (fun r => r.1.Seq)) := by
      rw [List.perm_iff_count]
      intro n
      have := hcnt n
      rw [unsent_finished _ hfin, hheld, hrest] at this
      simp at this
      exact this.symm
    have hcount : (writesOf s.trace).length = reqs.length := by
      have := hperm.length_eq
      simpa [seqsOf] using this
    refine ⟨hcount, hperm, ?_⟩
    intro hb hf
    have hW : WireInv cc.conn.wire s := by
      refine run_induction (WireInv cc.conn.wire) (wireInv_trans cc.conn.wire) sched _ s hI0
        ?_ hrun
      refine ⟨by simp [serveCodec_init], fun _ => ⟨fun _ => ?_, ?_⟩⟩
      · simp [serveCodec_init, hb, writesOf, frames]
      · intro i u hu
        simp [serveCodec_init] at hu
    have hfree : s.sending = none := by
      cases hs : s.sending with
      | none => rfl
      | some t =>
        cases t with
        | main => exact absurd hs hI.notMain
        | unit i =>
          obtain ⟨u, hu, hin⟩ := hI.held i hs
          rw [hfin u (List.getElem?_mem hu)] at hin
          simp [UnitPc.inCS] at hin
    obtain ⟨hbuf, hwire⟩ := (hW.2 hf).1 hfree
    refine ⟨hbuf, hwire, ?_, ?_⟩
    · rw [frames_length, hcount]
    · rw [headerSeqs_frames]
      exact hperm
  · simp only [stepsLeft, serveCodec_init, MainPc.rank, List.map_nil, List.sum_nil] at hlen
    omega

/-- The `Write` calls of a goroutine in a trace extended by operations of
goroutine `t`. -/
theorem writesBy_append (i : Nat) (tr evs : List Event) :
    writesBy i (tr ++ evs) = writesBy i tr ++ writesBy i evs := by
  simp [writesBy, writesOf, List.filterMap_append]

/-- The goroutine after `l1` moved and the operations added are its own: the
`Write` calls of the other goroutines are as before. -/
theorem writes_update (l1 l2 : List Goroutine) (u v : Goroutine) (tr evs : List Event)
    (hold : ∀ i, writesBy i tr = expectedWrites (l1 ++ u :: l2)[i]?)
    (hother : ∀ i, i ≠ l1.length → writesBy i evs = [])
    (hnew : expectedWrites (some u) ++ writesBy l1.length evs = expectedWrites (some v)) :
    ∀ i, writesBy i (tr ++ evs) = expectedWrites (l1 ++ v :: l2)[i]? := by
  intro i
  rw [writesBy_append, getElem?_replace l1 l2 u v i]
  by_cases hi : i = l1.length
  · subst hi
    have := hold l1.length
    rw [getElem?_mid] at this
    simp only [if_true]
    rw [this, hnew]
  · simp only [hi, if_false]
    rw [hother i hi, hold i, List.append_nil]

/-- The arguments of `sendResponse` stay those of the request when the
goroutine after `l1` moves on with the same request header. -/
theorem args_update (l1 l2 : List Goroutine) (u v : Goroutine)
    (hold : ∀ (i : Nat) (w : Goroutine) (h : Header) (b : Body) (sp : SendPc),
      (l1 ++ u :: l2)[i]? = some w → w.pc = .send h b sp →
      h = w.req.h ∧ b = .str (reply w.req.h))
    (hv : ∀ h b sp, v.pc = .send h b sp → h = v.req.h ∧ b = .str (reply v.req.h)) :
    ∀ (i : Nat) (w : Goroutine) (h : Header) (b : Body) (sp : SendPc),
      (l1 ++ v :: l2)[i]? = some w → w.pc = .send h b sp →
      h = w.req.h ∧ b = .str (reply w.req.h) := by
  intro i w h b sp hw hpc
  rw [getElem?_replace l1 l2 u v i] at hw
  by_cases hi : i = l1.length
  · simp only [hi, if_true, Option.some.injEq] at hw
    subst hw
    exact hv h b sp hpc
  · simp only [hi, if_false] at hw
    exact hold i w h b sp hw hpc

/-- The headers `readRequest` reads: the one of the request it returns. -/
theorem readRequest_okHeaders (cc : GobCodec) (t : Tid) :
    okHeaders ((readRequest cc).2.2.map (Event.mk t)) =
      match (readRequest cc).2.1.1 with
      | some req => [req.h]
      | none => [] := by
  obtain ⟨⟨opt, dec, wire, closes⟩, buf⟩ := cc
  cases dec with
  | nil => simp [readRequest, readRequestHeader, GobCodec.ReadHeader, okHeaders]
  | cons d rest =>
    obtain ⟨ah, as⟩ := d
    cases ah with
    | err e => simp [readRequest, readRequestHeader, GobCodec.ReadHeader, okHeaders]
    | ok h =>
      cases rest with
      | nil =>
        simp [readRequest, readRequestHeader, GobCodec.ReadHeader, GobCodec.ReadBody, okHeaders]
      | cons d2 rest2 =>
        obtain ⟨ah2, as2⟩ := d2
        cases as2 <;>
          simp [readRequest, readRequestHeader, GobCodec.ReadHeader, GobCodec.ReadBody,
            okHeaders]

/-- Every step keeps the invariant of `handleRequest`. -/
theorem replyInv_trans (s s1 : State) (c : Choice) (hI : Inv s) (hR : ReplyInv s)
    (ht : Trans s c s1) : ReplyInv s1 := by
  have hns := hI.noSend
  obtain ⟨h1, h2, h3⟩ := hR
  cases ht with
  | readBad => exact absurd ‹readRequest _ = _› (readRequest_no_req_err _ _ _ _ _)
  | mainSend => exact absurd ‹s.main = _› (hns _ _ _)
  | encHeaderOk | encHeaderFail =>
    rename_i l1 l2 r hd body hu
    rw [hu] at h1 h2 h3
    have ha := h1 _ _ _ _ _ (getElem?_mid _ _ _) rfl
    simp only [] at ha
    obtain ⟨ha1, ha2⟩ := ha
    subst ha1 ha2
    refine ⟨?_, ?_, ?_⟩
    · refine args_update _ _ _ _ h1 ?_
      intro h b sp hpc
      simp only [UnitPc.send.injEq] at hpc
      rw [← hpc.1, ← hpc.2.1]
      exact ⟨rfl, rfl⟩
    · refine writes_update _ _ _ _ _ _ h2 ?_ ?_
      · intro i hi
        have : ¬ l1.length = i := fun h => hi h.symm
        simp [writesBy, writesOf, this]
      · simp [writesBy, writesOf, expectedWrites, UnitPc.called]
    · simpa [okHeaders, List.filterMap_append] using h3
  | entry =>
    rename_i l1 l2 r hu
    rw [hu] at h1 h2 h3
    refine ⟨?_, ?_, ?_⟩
    · refine args_update _ _ _ _ h1 ?_
      intro h b sp hpc
      simp only [UnitPc.send.injEq] at hpc
      simp [hpc.1.symm, hpc.2.1.symm]
    · have := writes_update l1 l2 _
        ⟨{ r with replyv := some (reply r.h) }, .send r.h (.str (reply r.h)) .lock⟩
        s.trace [] h2 (by simp [writesBy, writesOf])
        (by simp [writesBy, writesOf, expectedWrites, UnitPc.called])
      simpa using this
    · simpa [okHeaders, List.filterMap_append] using h3
  | lock | encBodyOk | encBodyFail | flushOk | flushErr | closeOnErr | unlock | wgDone =>
    have hu := ‹s.units = _›
    rw [hu] at h1 h2 h3
    refine ⟨?_, ?_, ?_⟩
    · refine args_update _ _ _ _ h1 ?_
      intro h b sp hpc
      first
      | (simp only [UnitPc.send.injEq] at hpc
         have ha := h1 _ _ _ _ _ (getElem?_mid _ _ _) rfl
         rw [← hpc.1, ← hpc.2.1]
         exact ha)
      | simp at hpc
    · refine writes_update _ _ _ _ _ _ h2 ?_ ?_
      · intro i hi
        simp [writesBy, writesOf]
      · simp [writesBy, writesOf, expectedWrites, UnitPc.called]
    · simpa [okHeaders, List.filterMap_append] using h3
  | readErr | readOk =>
    have hr := ‹readRequest _ = _›
    have ho := readRequest_ops s.cc
    have hk := readRequest_okHeaders s.cc .main
    rw [hr] at ho hk
    simp only [] at ho hk
    rw [‹s.main = _›] at h3
    refine ⟨h1, ?_, ?_⟩
    · intro i
      show writesBy i (s.trace ++ _) = _
      unfold writesBy
      rw [writesOf_reads _ _ ho]
      exact h2 i
    · show okHeaders (s.trace ++ _) = _
      unfold okHeaders at hk h3 ⊢
      rw [List.filterMap_append, hk, h3]
      simp [MainPc.heldHeaders]
  | go =>
    rw [‹s.main = _›] at h3
    refine ⟨?_, ?_, ?_⟩
    · intro i u h b sp hu hpc
      rw [List.getElem?_append] at hu
      by_cases hi : i < s.units.length
      · simp only [hi, if_true] at hu
        exact h1 i u h b sp hu hpc
      · simp only [hi, if_false] at hu
        by_cases h0 : i - s.units.length = 0
        · rw [h0] at hu
          simp only [List.getElem?_cons_zero, Option.some.injEq] at hu
          subst hu
          simp at hpc
        · obtain ⟨k, hk⟩ := Nat.exists_eq_succ_of_ne_zero h0
          rw [hk] at hu
          simp at hu
    · intro i
      have := h2 i
      rw [writesBy_append]
      show writesBy i s.trace ++ writesBy i [_] = expectedWrites (s.units ++ [_])[i]?
      rw [List.getElem?_append]
      by_cases hi : i < s.units.length
      · simp only [hi, if_true]
        simpa [writesBy, writesOf] using this
      · simp only [hi, if_false]
        rw [List.getElem?_eq_none (by omega)] at this
        by_cases h0 : i - s.units.length = 0
        · rw [h0]
          simpa [writesBy, writesOf, expectedWrites, UnitPc.called] using this
        · obtain ⟨k, hk⟩ := Nat.exists_eq_succ_of_ne_zero h0
          rw [hk]
          simpa [writesBy, writesOf, expectedWrites] using this
    · simpa [okHeaders, List.filterMap_append, MainPc.heldHeaders] using h3
  | _ =>
    rw [‹s.main = _›] at h3
    refine ⟨h1, ?_, ?_⟩
    · intro i
      have := h2 i
      first
      | exact this
      | (rw [writesBy_append]
         simpa [writesBy, writesOf] using this)
    · simpa [okHeaders, List.filterMap_append, MainPc.heldHeaders] using h3


/-- C2 (as amended): the headers read are, in order, the headers of the
requests of the goroutines started (and of the request being dispatched); each
`handleRequest` goroutine makes no `Write` call before it enters `Write` and
then exactly one, with the header of its request unchanged (the same
`ServiceMethod`, `Seq` and `Error`) and the body `"I get your req, seq: "`
followed by the decimal `Seq`; so once `serveCodec` has passed `wg.Wait()`,
for the `i`-th header `h` read there is exactly one `Write` call of goroutine
`i`, with header `h` and that body. -/
theorem C2_response_echoes_request_header (cc : GobCodec) (sched : List Choice) (s : State)
    (hrun : run (serveCodec_init cc) sched = some s) :
    okHeaders s.trace = s.units.map (fun u => u.req.h) ++ s.main.heldHeaders ∧
    (∀ i, writesBy i s.trace = expectedWrites s.units[i]?) ∧
    (s.main = .close ∨ s.main = .deferred ∨ s.main = .done →
      ∀ i h, (okHeaders s.trace)[i]? = some h →
        writesBy i s.trace = [(h, .str ("I get your req, seq: " ++ Nat.repr h.Seq))]) := by
  have hI0 := inv_serveCodec_init cc
  have hI := inv_run sched _ s hI0 hrun
  have hR : ReplyInv s := by
    refine run_induction ReplyInv replyInv_trans sched _ s hI0 ?_ hrun
    constructor <;>
      simp [serveCodec_init, writesBy, writesOf, okHeaders, expectedWrites, MainPc.heldHeaders]
  refine ⟨hR.headers, hR.writes, ?_⟩
  intro hm i h hi
  have hq : s.main.quiet = true := by
    rcases hm with h | h | h <;> rw [h] <;> rfl
  have hheld : s.main.heldHeaders = [] := by
    rcases hm with h | h | h <;> rw [h] <;> rfl
  have hfin := all_finished s hI hq
  rw [hR.headers, hheld, List.append_nil, List.getElem?_map] at hi
  cases hu : s.units[i]? with
  | none => rw [hu] at hi; simp at hi
  | some u =>
    rw [hu] at hi
    simp only [Option.map_some', Option.some.injEq] at hi
    have hmem : u ∈ s.units := List.getElem?_mem hu
    have hf := hfin u hmem
    rw [hR.writes i, hu]
    simp [expectedWrites, hf, UnitPc.called, hi, reply]

/-- C2, the claim as stated fails: a request whose header has a non-empty
`Error` is answered with that `Error`, not with an empty one.  The run is
`serveCodec` on the one request `{"Foo.Sum", 1, "boom"}`, `"req 1"`, to its
end. -/
theorem C2_counterexample :
    ∃ s, run (serveCodec_init (oneRequest ⟨"Foo.Sum", 1, "boom"⟩ "req 1"))
        (serveOne ++ [⟨.main, none⟩, ⟨.main, none⟩]) = some s ∧
      s.main = .done ∧
      okHeaders s.trace = [⟨"Foo.Sum", 1, "boom"⟩] ∧
      writesOf s.trace =
        [(.unit 0, ⟨"Foo.Sum", 1, "boom"⟩, .str "I get your req, seq: 1")] ∧
      s.cc.conn.wire = [.hdr (.unit 0) ⟨"Foo.Sum", 1, "boom"⟩,
        .body (.unit 0) (.str "I get your req, seq: 1")] ∧
      (⟨"Foo.Sum", 1, "boom"⟩ : Header).Error ≠ "" :=
  ⟨_, rfl, rfl, rfl, rfl, rfl, by decide⟩

/-- C2 at the first request of `main.go`: header `{"Foo.Sum", 1, ""}`, body
`"geerpc req 1"`. -/
theorem C2_witness :
    ∃ s, run (serveCodec_init (oneRequest ⟨"Foo.Sum", 1, ""⟩ "geerpc req 1")) serveOne = some s ∧
      s.main = .close ∧
      writesBy 0 s.trace = [(⟨"Foo.Sum", 1, ""⟩, .str "I get your req, seq: 1")] :=
  ⟨_, rfl, rfl,
    (C2_response_echoes_request_header (oneRequest ⟨"Foo.Sum", 1, ""⟩ "geerpc req 1") serveOne
      _ rfl).2.2 (Or.inl rfl) 0 ⟨"Foo.Sum", 1, ""⟩ rfl⟩


/-- C3, what the code does: when the header decodes and the body does not,
`readRequest` returns the request with a nil error (line 131), so `serveCodec`
dispatches it as a good one; on the request `{"Foo.Sum", 1, ""}` with an
undecodable body the one response written has an empty `Error` and the body
`"I get your req, seq: 1"`, not a non-empty `Error` and `invalidRequest`. -/
theorem C3_body_error_answered_as_success (opt : Result ConnOption) (h : Header)
    (x : Result String) (y : Result Header) (e : GoError) (rest : List Decoding)
    (wire buf : List Chunk) (closes : Nat) :
    readRequest ⟨⟨opt, ⟨.ok h, x⟩ :: ⟨y, .err e⟩ :: rest, wire, closes⟩, buf⟩ =
      (⟨⟨opt, rest, wire, closes⟩, buf⟩, (some ⟨h, "", none⟩, none),
        [.readHeader (.ok h), .readBody (.err e)]) ∧
    ∃ s, run (serveCodec_init (badBody ⟨"Foo.Sum", 1, ""⟩ (.other "gob: bad body")))
        (serveOne ++ [⟨.main, none⟩, ⟨.main, none⟩]) = some s ∧
      s.main = .done ∧
      mainOps s.trace = [.readHeader (.ok ⟨"Foo.Sum", 1, ""⟩),
        .readBody (.err (.other "gob: bad body")), .wgAdd, .go 0, .readHeader (.err .EOF),
        .closeServeCodec, .closeServeConn] ∧
      writesOf s.trace = [(.unit 0, ⟨"Foo.Sum", 1, ""⟩, .str "I get your req, seq: 1")] ∧
      s.cc.conn.wire = [.hdr (.unit 0) ⟨"Foo.Sum", 1, ""⟩,
        .body (.unit 0) (.str "I get your req, seq: 1")] :=
  ⟨rfl, _, rfl, rfl, rfl, rfl, rfl⟩

/-- C1 at the four requests of `main.go`, answered in the order 3, 1, 4, 2 with
no encoding failing: four `Write` calls, and on the stream the four responses,
eight chunks. -/
theorem C1_witness :
    ∃ s, run (serveCodec_init (NewGobCodec ⟨.ok ⟨MagicNumber, GobType⟩,
          decodingsOf mainGoRequests, [], 0⟩)) mainGoSchedule = some s ∧
      s.main = .close ∧ seqsOf s.trace = [3, 1, 4, 2] ∧ failedWrites s.trace = 0 ∧
      headerSeqs s.cc.conn.wire = [3, 1, 4, 2] ∧ s.cc.conn.wire.length = 8 ∧
      ((writesOf s.trace).length = 4 ∧ (seqsOf s.trace).Perm [1, 2, 3, 4] ∧
       ((NewGobCodec ⟨.ok ⟨MagicNumber, GobType⟩, decodingsOf mainGoRequests, [], 0⟩).buf = [] →
        failedWrites s.trace = 0 →
        s.cc.buf = [] ∧ s.cc.conn.wire = [] ++ frames (writesOf s.trace) ∧
        (frames (writesOf s.trace)).length = 2 * 4 ∧
        (headerSeqs (frames (writesOf s.trace))).Perm [1, 2, 3, 4])) :=
  ⟨_, rfl, rfl, rfl, rfl, rfl, rfl,
    ((C1_one_response_per_request (NewGobCodec ⟨.ok ⟨MagicNumber, GobType⟩,
        decodingsOf mainGoRequests, [], 0⟩) mainGoRequests
      ⟨rfl, rfl, rfl, rfl, rfl, rfl, rfl, rfl, trivial⟩ mainGoSchedule _ rfl).1 (Or.inl rfl))⟩

/-- C6, the claim as stated fails: on a connection that passes the handshake
and then ends, `ServeConn` invokes `Close` twice, once through `cc.Close()` in
`serveCodec` and once through its deferred `conn.Close()`. -/
theorem C6_counterexample :
    Accepted (.ok ⟨0x3bef5c, "application/gob"⟩) ∧
    ∃ s, run (ServeConn_init (.ok ⟨0x3bef5c, "application/gob"⟩) [])
        (List.replicate 5 ⟨.main, none⟩) = some s ∧
      s.main = .done ∧
      s.trace.map (fun e => e.op) = [.decodeOption (.ok ⟨0x3bef5c, "application/gob"⟩),
        .newCodec "application/gob", .readHeader (.err .EOF), .closeServeCodec,
        .closeServeConn] ∧
      s.cc.conn.closes = 2 ∧ s.cc.conn.closes ≠ 1 :=
  ⟨⟨_, rfl, rfl, by decide⟩, _, rfl, rfl, rfl, rfl, by decide⟩

/-- C6 at a connection with two requests on which the first `Write` fails:
three `Close` calls. -/
theorem C6_witness :
    Accepted (.ok ⟨MagicNumber, GobType⟩) ∧
    ∃ s, run (ServeConn_init (.ok ⟨MagicNumber, GobType⟩)
          (decodingsOf (mainGoRequests.take 2)))
        failThenFinish = some s ∧ s.main = .done ∧ failedWrites s.trace = 1 ∧ s.cc.conn.closes = 3 ∧
      s.cc.conn.closes = 2 + failedWrites s.trace :=
  ⟨⟨_, rfl, rfl, by decide⟩, _, rfl, rfl, rfl, rfl,
    (C6_close_twice_plus_failed_writes (.ok ⟨MagicNumber, GobType⟩)
      (decodingsOf (mainGoRequests.take 2)) ⟨_, rfl, rfl, by decide⟩
      failThenFinish _ rfl rfl).2.2.2⟩

/-- C8 at the four requests of `main.go`. -/
theorem C8_witness :
    ∃ s, run (ServeConn_init (.ok ⟨MagicNumber, GobType⟩) (decodingsOf mainGoRequests))
        (⟨.main, none⟩ :: mainGoSchedule) = some s ∧
      lockScan s.trace = some s.sending ∧ s.cc.conn.wire.length = 8 :=
  ⟨_, rfl,
    (C8_writes_hold_mutex_frames_contiguous (.ok ⟨MagicNumber, GobType⟩)
      (decodingsOf mainGoRequests) (⟨.main, none⟩ :: mainGoSchedule) _ rfl).1, rfl⟩

/-- C9, the claim as stated fails: the first goroutine's `Write` fails to
encode the header and closes the codec; the second goroutine then enters
`Write` on the closed stream, while `serveCodec` is still waiting. -/
theorem C9_counterexample :
    ∃ s s1, run (ServeConn_init (.ok ⟨MagicNumber, GobType⟩)
          (decodingsOf (mainGoRequests.take 2))) failThenWrite = some s ∧
      s.main = .wait ∧ s.cc.conn.closes = 1 ∧
      (∃ u ∈ s.units, u.pc ≠ .finished) ∧
      step s ⟨.unit 1, some (.other "broken pipe")⟩ = some s1 ∧
      s1.trace = s.trace ++ [⟨.unit 1, .write ⟨"Foo.Sum", 2, ""⟩ (.str "I get your req, seq: 2")⟩,
        ⟨.unit 1, .encodeHeader (some (.other "broken pipe"))⟩] :=
  ⟨_, _, rfl, rfl, rfl, ⟨_, List.mem_cons_of_mem _ (List.mem_cons_self _ _), by decide⟩, rfl, rfl⟩

/-- C9 at the same run: the one `Close` so far was invoked inside the failed
`Write`. -/
theorem C9_witness :
    ∃ s u, run (ServeConn_init (.ok ⟨MagicNumber, GobType⟩)
          (decodingsOf (mainGoRequests.take 2))) failThenWrite = some s ∧
      u ∈ s.units ∧ u.pc ≠ .finished ∧ s.cc.conn.closes = 1 ∧
      countOp Op.isCloseServeCodec s.trace = 0 ∧ countOp Op.isCloseServeConn s.trace = 0 ∧
      s.cc.conn.closes = countOp Op.isCloseInWrite s.trace ∧
      s.cc.conn.closes ≤ failedWrites s.trace :=
  ⟨_, ⟨⟨⟨"Foo.Sum", 2, ""⟩, "geerpc req 2", some "I get your req, seq: 2"⟩,
      .send ⟨"Foo.Sum", 2, ""⟩ (.str "I get your req, seq: 2") (.write .encodeHeader)⟩,
    rfl, by decide, by decide, rfl,
    C9_close_waits_for_units (.ok ⟨MagicNumber, GobType⟩)
      (decodingsOf (mainGoRequests.take 2)) failThenWrite _ rfl
      ⟨⟨⟨"Foo.Sum", 2, ""⟩, "geerpc req 2", some "I get your req, seq: 2"⟩,
        .send ⟨"Foo.Sum", 2, ""⟩ (.str "I get your req, seq: 2") (.write .encodeHeader)⟩
      (by decide) (by decide)⟩

end Geerpc

namespace Geeorm

/-- The loop of `Parse` appends, for the kept fields in order, the field to
`Fields`, its name to `FieldNames`, and puts the binding in front of
`fieldMap`. -/
theorem foldl_parseField (isExported : String → Bool) (dataTypeOf : String → String)
    (tagLookup : String → String → Option String) (fields : List StructField) (sc : Schema) :
    fields.foldl (parseField isExported dataTypeOf tagLookup) sc =
      { sc with
        Fields := sc.Fields ++ (kept isExported fields).map (fieldOf dataTypeOf tagLookup),
        FieldNames := sc.FieldNames ++ (kept isExported fields).map (fun p => p.Name),
        fieldMap := ((kept isExported fields).map
          (fun p => (p.Name, fieldOf dataTypeOf tagLookup p))).reverse ++ sc.fieldMap } := by
  induction fields generalizing sc with
  | nil => simp [kept]
  | cons p ps ih =>
    rw [List.foldl_cons, ih]
    unfold parseField kept fieldOf
    by_cases hk : (!p.Anonymous && isExported p.Name) = true
    · cases ht : tagLookup p.Tag "geeorm" <;>
        simp [hk, ht, List.filter_cons]
    · simp [hk, List.filter_cons]

/-- In an association list with distinct keys every pair is the binding of its
key. -/
theorem lookup_of_mem {β : Type} (l : List (String × β)) (hnd : (l.map Prod.fst).Nodup)
    (k : String) (v : β) (h : (k, v) ∈ l) : l.lookup k = some v := by
  induction l with
  | nil => simp at h
  | cons a l ih =>
    obtain ⟨k1, v1⟩ := a
    simp only [List.map_cons, List.nodup_cons] at hnd
    simp only [List.mem_cons, Prod.mk.injEq] at h
    rcases h with ⟨hk, hv⟩ | h
    · subst hk hv
      simp [List.lookup]
    · have hne : k ≠ k1 := by
        intro hc
        subst hc
        exact hnd.1 (List.mem_map.mpr ⟨(k, v), h, rfl⟩)
      have : (k == k1) = false := by simpa using hne
      simp only [List.lookup, this]
      exact ih hnd.2 h

/-- A key that no pair has is not bound. -/
theorem lookup_of_not_mem {β : Type} (l : List (String × β)) (k : String)
    (h : k ∉ l.map Prod.fst) : l.lookup k = none := by
  induction l with
  | nil => rfl
  | cons a l ih =>
    obtain ⟨k1, v1⟩ := a
    simp only [List.map_cons, List.mem_cons, not_or] at h
    have : (k == k1) = false := by simpa using h.1
    simp only [List.lookup, this]
    exact ih h.2

/-- C10: for a struct value or a non-nil pointer to a struct whose kept field
names are distinct (as Go requires of the field names of a struct), `Parse`
returns a schema whose `FieldNames` are the names of the exported, not embedded
fields in declaration order; `Fields` has the same length and `Fields[i].Name`
is `FieldNames[i]`; `GetField(FieldNames[i])` is `Fields[i]`, and `GetField` is
nil for every name not in `FieldNames`. -/
theorem C10_Parse_field_names (isExported : String → Bool) (dataTypeOf : String → String)
    (tagLookup : String → String → Option String) (dest : Dest) (t : StructType)
    (hdest : dest.modelType = some t)
    (hnd : ((kept isExported t.Fields).map (fun p => p.Name)).Nodup) :
    ∃ sc, Parse isExported dataTypeOf tagLookup dest = some sc ∧
      sc.FieldNames = (t.Fields.filter (fun p => !p.Anonymous && isExported p.Name)).map
        (fun p => p.Name) ∧
      sc.Fields.length = sc.FieldNames.length ∧
      sc.Fields.map (fun f => f.Name) = sc.FieldNames ∧
      (∀ (i : Nat) (n : String), sc.FieldNames[i]? = some n → sc.GetField n = sc.Fields[i]? ∧
        (sc.Fields[i]?).isSome = true) ∧
      (∀ n, n ∉ sc.FieldNames → sc.GetField n = none) := by
  refine ⟨_, by simp only [Parse, hdest]; rfl, ?_⟩
  rw [foldl_parseField]
  have hname : ∀ p, (fieldOf dataTypeOf tagLookup p).Name = p.Name := by
    intro p
    unfold fieldOf
    cases tagLookup p.Tag "geeorm" <;> rfl
  have hkeys : (((kept isExported t.Fields).map
      (fun p => (p.Name, fieldOf dataTypeOf tagLookup p))).reverse.map Prod.fst) =
      ((kept isExported t.Fields).map (fun p => p.Name)).reverse := by
    simp [List.map_reverse, Function.comp_def]
  refine ⟨by simp [kept], by simp, by simp [Function.comp_def, hname], ?_, ?_⟩
  · intro i n hi
    simp only [List.nil_append, List.getElem?_map] at hi ⊢
    cases hp : (kept isExported t.Fields)[i]? with
    | none => rw [hp] at hi; simp at hi
    | some p =>
      rw [hp] at hi
      simp only [Option.map_some', Option.some.injEq] at hi
      subst hi
      refine ⟨?_, by simp⟩
      simp only [Schema.GetField, List.append_nil, Option.map_some']
      refine lookup_of_mem _ ?_ _ _ ?_
      · rw [hkeys]
        exact List.nodup_reverse.mpr hnd
      · rw [List.mem_reverse, List.mem_map]
        exact ⟨p, List.getElem?_mem hp, rfl⟩
  · intro n hn
    simp only [List.nil_append] at hn
    simp only [Schema.GetField, List.append_nil]
    refine lookup_of_not_mem _ _ ?_
    rw [hkeys, List.mem_reverse]
    exact hn

/-- C10 at a pointer to the struct `User`, with `ast.IsExported` on ASCII
names: the schema has the fields `Name` and `Age`. -/
theorem C10_witness :
    (Dest.pointer userType none).modelType = some userType ∧
    ((kept (fun n => (n.get 0).isUpper) userType.Fields).map (fun p => p.Name)).Nodup ∧
    (∃ sc, Parse (fun n => (n.get 0).isUpper) (fun t => t) (fun _ _ => none)
        (.pointer userType none) = some sc ∧
      sc.FieldNames = ["Name", "Age"] ∧ sc.Name = "User" ∧
      sc.GetField "Age" = some ⟨"Age", "int", ""⟩ ∧ sc.GetField "secret" = none) ∧
    ∃ sc, Parse (fun n => (n.get 0).isUpper) (fun t => t) (fun _ _ => none)
        (.pointer userType none) = some sc ∧
      sc.FieldNames = (userType.Fields.filter
        (fun p => !p.Anonymous && (p.Name.get 0).isUpper)).map (fun p => p.Name) ∧
      sc.Fields.length = sc.FieldNames.length ∧
      sc.Fields.map (fun f => f.Name) = sc.FieldNames ∧
      (∀ (i : Nat) (n : String), sc.FieldNames[i]? = some n →
        sc.GetField n = sc.Fields[i]? ∧ (sc.Fields[i]?).isSome = true) ∧
      (∀ n, n ∉ sc.FieldNames → sc.GetField n = none) :=
  ⟨rfl, by decide, ⟨_, rfl, by decide, rfl, by decide, by decide⟩,
    C10_Parse_field_names (fun n => (n.get 0).isUpper) (fun t => t) (fun _ _ => none)
      (.pointer userType none) userType rfl (by decide)⟩

end Geeorm
